import Mathlib

/-!
Verification of the batched-update scheduler and transactional reconciliation
pipeline of a retained-tree rendering library (React 15.6.1 stack reconciler).

The development shallowly embeds the relevant modules:
* `CallbackQueue`  (src/src/renderers/shared/utils/CallbackQueue.js)
* `ReactRef`       (src/src/renderers/shared/stack/reconciler/ReactRef.js)
* `ReactReconciler` (receiveComponent / performUpdateIfNecessary)
* `ReactUpdates`   (enqueueUpdate / runBatchedUpdates / flushBatchedUpdates,
  src/src/renderers/shared/stack/reconciler/ReactUpdates.js)
together with spec-modelled stand-ins for collaborators whose sources are not
part of the repository snapshot (the `Transaction` hook bracketing, the pooled
allocation discipline, the default batching strategy and the node-kind update
implementations), each marked `Modelled from the spec`.

JavaScript reference identity of objects is modelled by integer identities
(heap addresses for elements, ids for functions and owner instances); machine
state that the code mutates in place is threaded explicitly.
-/

namespace ReactVerify

/-! ## CallbackQueue

Embedding of `class CallbackQueue` from
src/src/renderers/shared/utils/CallbackQueue.js.  Callbacks and contexts are
identified by natural numbers; a callback's only observable effect during
`notifyAll` is the list of `(callback, context)` pairs it re-enqueues into the
very queue being notified, given by the behaviour map `cbBeh`. -/

/-- `_callbacks`, `_contexts` and `_arg` of a CallbackQueue instance; the two
lists are `Option`s because the source initialises them to `null`. -/
structure CallbackQueue where
  callbacksF : Option (List Nat)
  contextsF : Option (List Nat)
  argF : Nat
deriving DecidableEq, Repr

/-- `enqueue(callback, context)`: `this._callbacks = this._callbacks || []`,
push `callback`; same for `_contexts` and `context`. -/
def CallbackQueue.enqueue (q : CallbackQueue) (callback : Nat) (context : Nat) :
    CallbackQueue :=
  { q with
    callbacksF := some (q.callbacksF.getD [] ++ [callback])
    contextsF := some (q.contextsF.getD [] ++ [context]) }

/-- Fold a list of `(callback, context)` pairs through `enqueue`. -/
def CallbackQueue.enqueueAll (q : CallbackQueue) (ps : List (Nat × Nat)) :
    CallbackQueue :=
  ps.foldl (fun qq p => qq.enqueue p.1 p.2) q

/-- One invocation record of `callbacks[i].call(contexts[i], arg)`:
the callback, its paired context, and the queue-wide trailing argument. -/
structure NotifyCall where
  callback : Nat
  context : Nat
  arg : Nat
deriving DecidableEq, Repr

/-- `notifyAll()`: if both lists are non-null, fatally check the length
invariant, detach both lists from the instance, then invoke the callbacks in
FIFO order (each invocation may re-enqueue pairs into the detached-state queue
via `cbBeh`).  `none` models the fatal `invariant` failure. -/
def CallbackQueue.notifyAll (cbBeh : Nat → List (Nat × Nat)) (q : CallbackQueue) :
    Option (CallbackQueue × List NotifyCall) :=
  match q.callbacksF, q.contextsF with
  | some callbacks, some contexts =>
    if callbacks.length = contexts.length then
      let detached : CallbackQueue :=
        { q with callbacksF := none, contextsF := none }
      some ((callbacks.zip contexts).foldl
        (fun st p => (st.1.enqueueAll (cbBeh p.1),
                      st.2 ++ [⟨p.1, p.2, q.argF⟩]))
        (detached, []))
    else none
  | _, _ => some (q, [])

/-- `checkpoint()`: `this._callbacks ? this._callbacks.length : 0`. -/
def CallbackQueue.checkpoint (q : CallbackQueue) : Nat :=
  match q.callbacksF with
  | some callbacks => callbacks.length
  | none => 0

/-- `rollback(len)`: if both lists are non-null, truncate both to `len`. -/
def CallbackQueue.rollback (q : CallbackQueue) (len : Nat) : CallbackQueue :=
  match q.callbacksF, q.contextsF with
  | some callbacks, some contexts =>
    { q with
      callbacksF := some (callbacks.take len)
      contextsF := some (contexts.take len) }
  | _, _ => q

/-- A queue state reachable through the public contract: either both lists are
null, or both are present with equal lengths (the documented invariant). -/
def CallbackQueue.wellFormed (q : CallbackQueue) : Prop :=
  (q.callbacksF = none ∧ q.contextsF = none) ∨
  (∃ callbacks contexts, q.callbacksF = some callbacks ∧
    q.contextsF = some contexts ∧ callbacks.length = contexts.length)

/-! ### CallbackQueue lemmas -/

theorem CallbackQueue.enqueueAll_append (q : CallbackQueue)
    (ps qs : List (Nat × Nat)) :
    q.enqueueAll (ps ++ qs) = (q.enqueueAll ps).enqueueAll qs := by
  simp [CallbackQueue.enqueueAll, List.foldl_append]

theorem CallbackQueue.enqueueAll_some (cbs ctxs : List Nat) (arg : Nat)
    (ps : List (Nat × Nat)) :
    CallbackQueue.enqueueAll ⟨some cbs, some ctxs, arg⟩ ps =
      ⟨some (cbs ++ ps.map Prod.fst), some (ctxs ++ ps.map Prod.snd), arg⟩ := by
  induction ps generalizing cbs ctxs with
  | nil => simp [CallbackQueue.enqueueAll]
  | cons p ps ih =>
    simp only [CallbackQueue.enqueueAll, List.foldl_cons] at *
    rw [show (CallbackQueue.enqueue ⟨some cbs, some ctxs, arg⟩ p.1 p.2) =
        ⟨some (cbs ++ [p.1]), some (ctxs ++ [p.2]), arg⟩ from rfl]
    rw [ih]
    simp

theorem CallbackQueue.notifyAll_foldl (cbBeh : Nat → List (Nat × Nat))
    (arg : Nat) (ps : List (Nat × Nat)) (q : CallbackQueue)
    (evs : List NotifyCall) :
    ps.foldl
      (fun st p => (CallbackQueue.enqueueAll st.1 (cbBeh p.1),
                    st.2 ++ [⟨p.1, p.2, arg⟩]))
      (q, evs) =
    (q.enqueueAll ((ps.map (fun p => cbBeh p.1)).flatten),
     evs ++ ps.map (fun p => ⟨p.1, p.2, arg⟩)) := by
  induction ps generalizing q evs with
  | nil => simp [CallbackQueue.enqueueAll]
  | cons p ps ih =>
    simp only [List.foldl_cons, List.map_cons, List.flatten_cons]
    rw [ih, CallbackQueue.enqueueAll_append]
    simp

/-- Claim C6: `CallbackQueue.notifyAll` invokes every enqueued callback in FIFO
(enqueue) order, each with its own paired context and the queue-wide shared
trailing argument; the internal callback/context lists are detached from the
queue before any callback is invoked, so callbacks that enqueue further
callbacks during notification place them in a fresh queue for a future notify
cycle (the current invocation list is exactly the pre-notification zip); and
`notifyAll` fails with a fatal invariant when the two list lengths differ. -/
theorem callbackQueue_notifyAll_fifo_detached (q : CallbackQueue)
    (cbs ctxs : List Nat) (cbBeh : Nat → List (Nat × Nat))
    (hc : q.callbacksF = some cbs) (hx : q.contextsF = some ctxs) :
    (cbs.length = ctxs.length →
      q.notifyAll cbBeh =
        some (CallbackQueue.enqueueAll ⟨none, none, q.argF⟩
                (((cbs.zip ctxs).map (fun p => cbBeh p.1)).flatten),
              (cbs.zip ctxs).map (fun p => ⟨p.1, p.2, q.argF⟩))) ∧
    (cbs.length ≠ ctxs.length → q.notifyAll cbBeh = none) := by
  constructor
  · intro hlen
    simp only [CallbackQueue.notifyAll, hc, hx, if_pos hlen]
    rw [CallbackQueue.notifyAll_foldl]
    simp
  · intro hlen
    simp only [CallbackQueue.notifyAll, hc, hx, if_neg hlen]

/-- Witness for C6 at a concrete queue: callbacks `[10, 11]` with contexts
`[20, 21]` and argument `7`; callback `10` re-enqueues `(12, 22)` mid-notify,
which lands in the fresh post-notification queue, not in the invocation list. -/
theorem callbackQueue_notifyAll_fifo_detached_witness :
    CallbackQueue.notifyAll
        (fun cb => if cb = 10 then [(12, 22)] else [])
        ⟨some [10, 11], some [20, 21], 7⟩ =
      some (⟨some [12], some [22], 7⟩, [⟨10, 20, 7⟩, ⟨11, 21, 7⟩]) := by
  have h := (callbackQueue_notifyAll_fifo_detached
    ⟨some [10, 11], some [20, 21], 7⟩ [10, 11] [20, 21]
    (fun cb => if cb = 10 then [(12, 22)] else []) rfl rfl).1 (by decide)
  rw [h]
  rfl

/-- Claim C7: for every well-formed CallbackQueue state `q`, taking
`n = q.checkpoint()`, performing any number of `enqueue` calls, then calling
`rollback(n)` leaves the queue observationally identical to `q`: `checkpoint`
returns `n` again, and `notifyAll` invokes exactly the callbacks enqueued
before the checkpoint, in their original order with their original contexts. -/
theorem callbackQueue_checkpoint_rollback (q : CallbackQueue)
    (es : List (Nat × Nat)) (hwf : q.wellFormed) :
    ((q.enqueueAll es).rollback q.checkpoint).checkpoint = q.checkpoint ∧
    ∀ cbBeh, ((q.enqueueAll es).rollback q.checkpoint).notifyAll cbBeh =
      q.notifyAll cbBeh := by
  rcases hwf with ⟨hc, hx⟩ | ⟨cbs, ctxs, hc, hx, hlen⟩
  · rcases q with ⟨qc, qx, qa⟩
    simp only at hc hx
    subst hc; subst hx
    cases es with
    | nil =>
      simp [CallbackQueue.enqueueAll, CallbackQueue.rollback]
    | cons e es =>
      have hstep : CallbackQueue.enqueueAll ⟨none, none, qa⟩ (e :: es) =
          CallbackQueue.enqueueAll ⟨some [e.1], some [e.2], qa⟩ es := by
        simp [CallbackQueue.enqueueAll, CallbackQueue.enqueue]
      rw [hstep, CallbackQueue.enqueueAll_some]
      have hchk : CallbackQueue.checkpoint ⟨none, none, qa⟩ = 0 := rfl
      rw [hchk]
      constructor
      · simp [CallbackQueue.rollback, CallbackQueue.checkpoint]
      · intro cbBeh
        simp [CallbackQueue.rollback, CallbackQueue.notifyAll,
          CallbackQueue.enqueueAll]
  · rcases q with ⟨qc, qx, qa⟩
    simp only at hc hx
    subst hc; subst hx
    rw [CallbackQueue.enqueueAll_some]
    have hchk : CallbackQueue.checkpoint ⟨some cbs, some ctxs, qa⟩ =
        cbs.length := rfl
    rw [hchk]
    have hroll : CallbackQueue.rollback
        ⟨some (cbs ++ es.map Prod.fst), some (ctxs ++ es.map Prod.snd), qa⟩
        cbs.length = ⟨some cbs, some ctxs, qa⟩ := by
      simp only [CallbackQueue.rollback, List.take_left]
      rw [hlen, List.take_left]
    rw [hroll]
    exact ⟨rfl, fun _ => rfl⟩

/-- Witness for C7: a queue holding `(1, 5)` with argument `0`, three
speculative enqueues, rollback to the checkpoint; observations are restored. -/
theorem callbackQueue_checkpoint_rollback_witness :
    ((CallbackQueue.enqueueAll ⟨some [1], some [5], 0⟩ [(2, 6), (3, 7), (4, 8)]).rollback
        (CallbackQueue.checkpoint ⟨some [1], some [5], 0⟩)).checkpoint =
      CallbackQueue.checkpoint ⟨some [1], some [5], 0⟩ ∧
    ((CallbackQueue.enqueueAll ⟨some [1], some [5], 0⟩ [(2, 6), (3, 7), (4, 8)]).rollback
        (CallbackQueue.checkpoint ⟨some [1], some [5], 0⟩)).notifyAll (fun _ => []) =
      CallbackQueue.notifyAll (fun _ => []) ⟨some [1], some [5], 0⟩ := by
  have h := callbackQueue_checkpoint_rollback ⟨some [1], some [5], 0⟩
    [(2, 6), (3, 7), (4, 8)] (Or.inr ⟨[1], [5], rfl, rfl, rfl⟩)
  exact ⟨h.1, h.2 (fun _ => [])⟩

/-! ## ReactRef and ReactReconciler.receiveComponent

Embedding of `ReactRef.shouldUpdateRefs` / `attachRefs` / `detachRefs`
(src/src/renderers/shared/stack/reconciler/ReactRef.js) and of
`ReactReconciler.receiveComponent` (src/unnamed/part_001, lines 118-162).

A `ref` value is either a callback function (JS reference identity modelled by
an id) or a legacy string name; element objects live behind heap addresses so
that JS `===` on elements is address equality while `===` on strings and
numbers stays value equality. -/

/-- A JS `ref` value: a function (compared by reference identity, modelled by
an id) or a string name (compared by value). -/
inductive RefValue where
  | fn (id : Nat)
  | str (name : String)
deriving DecidableEq, Repr

/-- The `ref` and `_owner` fields of a ReactElement object (`none` models
`null`); owners are compared by reference identity, modelled by ids. -/
structure ElementData where
  ref : Option RefValue
  owner : Option Nat
deriving DecidableEq, Repr

/-- A value of flow type `ReactElement | string | number | null | false`:
element objects are heap addresses, so equality of `elem` values is JS
reference identity while `text`/`num` equality is JS value identity. -/
inductive RNode where
  | elem (addr : Nat)
  | text (s : String)
  | num (n : Int)
  | null
  | fls
deriving DecidableEq, Repr

/-- `element.ref` after the `typeof prevElement === 'object'` guard of
`shouldUpdateRefs` (null for non-objects). -/
def refOf (heap : Nat → ElementData) : RNode → Option RefValue
  | RNode.elem addr => (heap addr).ref
  | _ => none

/-- `element._owner` after the object guard (null for non-objects). -/
def ownerOf (heap : Nat → ElementData) : RNode → Option Nat
  | RNode.elem addr => (heap addr).owner
  | _ => none

/-- `ReactRef.shouldUpdateRefs(prevElement, nextElement)`:
`prevRef !== nextRef || (typeof nextRef === 'string' && nextOwner !== prevOwner)`
with the ref/owner projections guarded by the object checks. -/
def shouldUpdateRefs (heap : Nat → ElementData) (prevElement nextElement : RNode) :
    Bool :=
  let prevRef := refOf heap prevElement
  let prevOwner := ownerOf heap prevElement
  let nextRef := refOf heap nextElement
  let nextOwner := ownerOf heap nextElement
  decide (prevRef ≠ nextRef) ||
    (match nextRef with
     | some (RefValue.str _) => decide (nextOwner ≠ prevOwner)
     | _ => false)

/-- The ref-change predicate in the words of the spec: the previous and next
ref values are not reference-identical, or the next ref is name-based (a
string) and the owning ancestors differ. -/
def refTargetChangedSpec (heap : Nat → ElementData)
    (prevElement nextElement : RNode) : Prop :=
  refOf heap prevElement ≠ refOf heap nextElement ∨
    ((∃ name, refOf heap nextElement = some (RefValue.str name)) ∧
      ownerOf heap nextElement ≠ ownerOf heap prevElement)

/-- Observable steps taken by `ReactReconciler.receiveComponent`. -/
inductive ReconcileStep where
  | detachedRef (r : RefValue) (owner : Option Nat)
  | innerReceive (next : RNode)
  | attachEnqueued
deriving DecidableEq, Repr

/-- `ReactRef.detachRefs(instance, element)` as its observable steps: nothing
for non-objects or a null ref, otherwise one detach of `(ref, _owner)`. -/
def detachRefsSteps (heap : Nat → ElementData) (element : RNode) :
    List ReconcileStep :=
  match element with
  | RNode.elem addr =>
    match (heap addr).ref with
    | some r => [ReconcileStep.detachedRef r (heap addr).owner]
    | none => []
  | _ => []

/-- The `_currentElement` and `_context` fields of an internal instance
(contexts are JS objects compared by `===`, modelled by ids). -/
structure InternalInstance where
  currentElement : RNode
  context : Nat
deriving DecidableEq, Repr

/-- `ReactReconciler.receiveComponent(internalInstance, nextElement,
transaction, context)` returning the updated instance and its observable
steps.  The delegated node-kind `internalInstance.receiveComponent` is
Modelled from the spec: the node-kind update applies `nextElement` as the
node's new current description under the new external context. -/
def receiveComponent (heap : Nat → ElementData) (inst : InternalInstance)
    (nextElement : RNode) (context : Nat) :
    InternalInstance × List ReconcileStep :=
  let prevElement := inst.currentElement
  if nextElement = prevElement ∧ context = inst.context then
    (inst, [])
  else
    let refsChanged := shouldUpdateRefs heap prevElement nextElement
    let detachSteps := if refsChanged then detachRefsSteps heap prevElement else []
    let inst1 : InternalInstance := ⟨nextElement, context⟩
    let attachSteps :=
      if refsChanged ∧ refOf heap inst1.currentElement ≠ none then
        [ReconcileStep.attachEnqueued]
      else []
    (inst1, detachSteps ++ [ReconcileStep.innerReceive nextElement] ++ attachSteps)

/-- Claim C8: `ReactReconciler.receiveComponent` is a no-op when `nextElement`
is reference-identical to the instance's `_currentElement` and the context
equals the instance's `_context`: it returns before any ref detach/attach and
before delegating to the node-kind implementation, leaving the instance
unchanged and performing no observable step. -/
theorem receiveComponent_identity_noop (heap : Nat → ElementData)
    (inst : InternalInstance) (nextElement : RNode) (context : Nat)
    (helem : nextElement = inst.currentElement) (hctx : context = inst.context) :
    receiveComponent heap inst nextElement context = (inst, []) := by
  simp [receiveComponent, helem, hctx]

/-- Witness for C8: an instance whose current description is the element at
address `3` under context `9` receives that very element and context. -/
theorem receiveComponent_identity_noop_witness :
    receiveComponent (fun _ => ⟨some (RefValue.fn 0), some 1⟩)
        ⟨RNode.elem 3, 9⟩ (RNode.elem 3) 9 = (⟨RNode.elem 3, 9⟩, []) :=
  receiveComponent_identity_noop (fun _ => ⟨some (RefValue.fn 0), some 1⟩)
    ⟨RNode.elem 3, 9⟩ (RNode.elem 3) 9 rfl rfl

/-- Counterexample to C9 as stated: with a previous element carrying a
function ref and a next element carrying no ref, `shouldUpdateRefs` is true
yet `receiveComponent` enqueues no ref attach (the source additionally
requires the updated current element's ref to be non-null). -/
theorem shouldUpdateRefs_attach_counterexample :
    shouldUpdateRefs
        (fun addr => if addr = 0 then ⟨some (RefValue.fn 0), none⟩ else ⟨none, none⟩)
        (RNode.elem 0) (RNode.elem 1) = true ∧
    ReconcileStep.attachEnqueued ∉
      (receiveComponent
        (fun addr => if addr = 0 then ⟨some (RefValue.fn 0), none⟩ else ⟨none, none⟩)
        ⟨RNode.elem 0, 5⟩ (RNode.elem 1) 5).2 := by
  decide

/-- Claim C9 (amended): `ReactRef.shouldUpdateRefs(prevElement, nextElement)`
returns true iff the previous and next ref values are not reference-identical,
or the next ref is a string (name-based) and the owners differ; for every pair
of elements sharing the same function-valued ref, changing only the owner
yields false; and during `receiveComponent` the old ref is detached before the
node-kind update exactly when this predicate holds, while the new ref attach
is enqueued after it exactly when this predicate holds AND the updated current
element carries a non-null ref. -/
theorem shouldUpdateRefs_spec (heap : Nat → ElementData) :
    (∀ prevElement nextElement,
      shouldUpdateRefs heap prevElement nextElement = true ↔
        refTargetChangedSpec heap prevElement nextElement) ∧
    (∀ a b fid, (heap a).ref = some (RefValue.fn fid) →
      (heap b).ref = some (RefValue.fn fid) →
      shouldUpdateRefs heap (RNode.elem a) (RNode.elem b) = false) ∧
    (∀ inst nextElement context,
      ¬(nextElement = inst.currentElement ∧ context = inst.context) →
      (receiveComponent heap inst nextElement context).2 =
        (if shouldUpdateRefs heap inst.currentElement nextElement then
           detachRefsSteps heap inst.currentElement
         else []) ++
        [ReconcileStep.innerReceive nextElement] ++
        (if shouldUpdateRefs heap inst.currentElement nextElement ∧
            refOf heap nextElement ≠ none then
           [ReconcileStep.attachEnqueued]
         else [])) := by
  refine ⟨?_, ?_, ?_⟩
  · intro prevElement nextElement
    unfold shouldUpdateRefs refTargetChangedSpec
    constructor
    · intro h
      rcases Bool.or_eq_true_iff.mp h with h | h
      · exact Or.inl (of_decide_eq_true h)
      · rcases hr : refOf heap nextElement with _ | r
        · rw [hr] at h; simp at h
        · cases r with
          | fn id => rw [hr] at h; simp at h
          | str name =>
            rw [hr] at h
            exact Or.inr ⟨⟨name, rfl⟩, of_decide_eq_true h⟩
    · intro h
      rcases h with h | ⟨⟨name, hr⟩, howner⟩
      · exact Bool.or_eq_true_iff.mpr (Or.inl (decide_eq_true h))
      · refine Bool.or_eq_true_iff.mpr (Or.inr ?_)
        rw [hr]
        exact decide_eq_true howner
  · intro a b fid ha hb
    unfold shouldUpdateRefs
    simp [refOf, ha, hb]
  · intro inst nextElement context hne
    unfold receiveComponent
    rw [if_neg hne]

/-- Witness for C9 (amended): the predicate fires on a string-ref owner
change, stays false for a shared function ref under an owner change, and the
step list of a concrete non-trivial `receiveComponent` decomposes as stated. -/
theorem shouldUpdateRefs_spec_witness :
    shouldUpdateRefs
        (fun addr => if addr = 0 then ⟨some (RefValue.fn 4), some 1⟩
                     else ⟨some (RefValue.fn 4), some 2⟩)
        (RNode.elem 0) (RNode.elem 1) = false ∧
    (receiveComponent
        (fun addr => if addr = 0 then ⟨some (RefValue.fn 4), some 1⟩
                     else ⟨some (RefValue.fn 4), some 2⟩)
        ⟨RNode.elem 0, 5⟩ (RNode.elem 1) 5).2 =
      [ReconcileStep.innerReceive (RNode.elem 1)] := by
  have h := shouldUpdateRefs_spec
    (fun addr => if addr = 0 then ⟨some (RefValue.fn 4), some 1⟩
                 else ⟨some (RefValue.fn 4), some 2⟩)
  have h2 := h.2.1 0 1 4 (by decide) (by decide)
  have h3 := h.2.2 ⟨RNode.elem 0, 5⟩ (RNode.elem 1) 5 (by decide)
  refine ⟨h2, ?_⟩
  rw [h3]
  decide

/-! ## Transaction

The `Transaction` module itself is not part of the repository snapshot (only
its callers are), so `perform` is Modelled from the spec, §4.1: every
wrapper's setup hook runs in registration order; if one throws, no further
wrappers set up and the method does not run; every successfully set-up
wrapper's close hook runs afterwards in the same order (best-effort even under
further throws); the first error encountered is the one propagated to the
caller once all closes have been attempted.  Hooks and the wrapped method are
described by their outcome: `none` for normal return, `some e` for a thrown
error `e`. -/

/-- A transaction wrapper described by the outcomes of its two hooks:
`setupErr`/`closeErr` are `some e` when the respective hook throws `e`. -/
structure WrapperOutcome where
  setupErr : Option Nat
  closeErr : Option Nat
deriving DecidableEq, Repr

/-- Observable steps of one `perform` call. -/
inductive TransactionStep where
  | setUp (i : Nat)
  | ran
  | closed (i : Nat)
deriving DecidableEq, Repr

/-- Index and error of the first wrapper whose setup hook throws. -/
def firstSetupFailure : List WrapperOutcome → Option (Nat × Nat)
  | [] => none
  | w :: ws =>
    match w.setupErr with
    | some e => some (0, e)
    | none => (firstSetupFailure ws).map (fun p => (p.1 + 1, p.2))

/-- First error thrown by the close hooks of the first `n` wrappers, in order. -/
def firstCloseFailure (ws : List WrapperOutcome) (n : Nat) : Option Nat :=
  ((ws.take n).filterMap (fun w => w.closeErr)).head?

/-- Modelled from the spec (§4.1 `Transaction`): `perform(method, ...)` with
wrapper list `ws` and wrapped-method outcome `methodErr`, returning the
observable steps and the error ultimately propagated to the caller (if any). -/
def transactionPerform (ws : List WrapperOutcome) (methodErr : Option Nat) :
    List TransactionStep × Option Nat :=
  match firstSetupFailure ws with
  | some (k, e) =>
    ((List.range k).map TransactionStep.setUp ++
      (List.range k).map TransactionStep.closed, some e)
  | none =>
    ((List.range ws.length).map TransactionStep.setUp ++ [TransactionStep.ran] ++
      (List.range ws.length).map TransactionStep.closed,
     match methodErr with
     | some e => some e
     | none => firstCloseFailure ws ws.length)

/-- Claim C4: for a Transaction `perform` with wrappers `[w1, w2]`: if `w2`'s
setup hook throws, `w1.close` still runs while `w2.close` and the wrapped
method never run and the setup error propagates; if the wrapped method throws,
both closes still run and the method's error (the first encountered) is the
one propagated after all closes have been attempted; if the method returns and
`w1.close` throws, `w2.close` still runs and `w1`'s close error propagates. -/
theorem transactionPerform_failure_paths (w1 w2 : WrapperOutcome)
    (methodErr : Option Nat) :
    (∀ e, w1.setupErr = none → w2.setupErr = some e →
      transactionPerform [w1, w2] methodErr =
        ([TransactionStep.setUp 0, TransactionStep.closed 0], some e)) ∧
    (∀ e, w1.setupErr = none → w2.setupErr = none → methodErr = some e →
      transactionPerform [w1, w2] methodErr =
        ([TransactionStep.setUp 0, TransactionStep.setUp 1, TransactionStep.ran,
          TransactionStep.closed 0, TransactionStep.closed 1], some e)) ∧
    (∀ e, w1.setupErr = none → w2.setupErr = none → methodErr = none →
      w1.closeErr = some e →
      transactionPerform [w1, w2] methodErr =
        ([TransactionStep.setUp 0, TransactionStep.setUp 1, TransactionStep.ran,
          TransactionStep.closed 0, TransactionStep.closed 1], some e)) := by
  refine ⟨?_, ?_, ?_⟩
  · intro e h1 h2
    simp [transactionPerform, firstSetupFailure, h1, h2, List.range_succ]
  · intro e h1 h2 hm
    simp [transactionPerform, firstSetupFailure, h1, h2, hm, List.range_succ]
  · intro e h1 h2 hm hc
    simp [transactionPerform, firstSetupFailure, firstCloseFailure,
      h1, h2, hm, hc, List.range_succ, List.take, List.filterMap]

/-- Witness for C4 at concrete wrappers: a `w2` whose setup throws error `3`,
and, with clean setups, a method throwing error `4` while both closes throw. -/
theorem transactionPerform_failure_paths_witness :
    transactionPerform [⟨none, none⟩, ⟨some 3, none⟩] none =
      ([TransactionStep.setUp 0, TransactionStep.closed 0], some 3) ∧
    transactionPerform [⟨none, some 8⟩, ⟨none, some 9⟩] (some 4) =
      ([TransactionStep.setUp 0, TransactionStep.setUp 1, TransactionStep.ran,
        TransactionStep.closed 0, TransactionStep.closed 1], some 4) := by
  exact ⟨(transactionPerform_failure_paths ⟨none, none⟩ ⟨some 3, none⟩ none).1
      3 rfl rfl,
    (transactionPerform_failure_paths ⟨none, some 8⟩ ⟨none, some 9⟩ (some 4)).2.1
      4 rfl rfl rfl⟩

/-! ## Pool discipline of flushBatchedUpdates

Resource projection of `flushBatchedUpdates` (ReactUpdates.js lines 243-263):
each iteration with dirty work acquires a `ReactUpdatesFlushTransaction` via
`getPooled()` (whose constructor also acquires a pooled `CallbackQueue` and a
pooled reconcile transaction), runs `transaction.perform(...)`, and then calls
`ReactUpdatesFlushTransaction.release(transaction)` — a plain statement, not
guarded by any finally.  `release` and the destructor chain are Modelled from
the spec (§2/§3 Pool, the PooledClass source is not in the snapshot): release
runs the destructor, which releases the pooled `CallbackQueue` and reconcile
transaction (ReactUpdates.js lines 117-123).  A pass is described by the
outcome of its `perform` call: `none` for normal return, `some e` when user
code makes `perform` throw `e` (the error propagates out of the loop). -/

/-- Acquire/release counters for the three pooled types touched by a drain:
the flush transaction, its `CallbackQueue`, and its reconcile transaction. -/
structure PoolCounters where
  flushAcq : Nat
  flushRel : Nat
  cbqAcq : Nat
  cbqRel : Nat
  rtAcq : Nat
  rtRel : Nat
deriving DecidableEq, Repr

/-- All three pools balanced: every acquired instance has been released. -/
def PoolCounters.balanced (c : PoolCounters) : Prop :=
  c.flushAcq = c.flushRel ∧ c.cbqAcq = c.cbqRel ∧ c.rtAcq = c.rtRel

instance : DecidablePred PoolCounters.balanced := by
  intro c
  unfold PoolCounters.balanced
  infer_instance

/-- `ReactUpdatesFlushTransaction.getPooled()`: the constructor acquires the
flush transaction plus a pooled `CallbackQueue` and reconcile transaction. -/
def PoolCounters.acquireFlush (c : PoolCounters) : PoolCounters :=
  { c with
    flushAcq := c.flushAcq + 1
    cbqAcq := c.cbqAcq + 1
    rtAcq := c.rtAcq + 1 }

/-- `ReactUpdatesFlushTransaction.release(transaction)`: release runs the
destructor, which releases the pooled `CallbackQueue` and the reconcile
transaction (Modelled from the spec for the PooledClass half). -/
def PoolCounters.releaseFlush (c : PoolCounters) : PoolCounters :=
  { c with
    flushRel := c.flushRel + 1
    cbqRel := c.cbqRel + 1
    rtRel := c.rtRel + 1 }

/-- The drain loop of `flushBatchedUpdates` projected onto pool effects, one
list entry per iteration that finds dirty work: acquire, perform, and release
only on the non-throwing path (a thrown error propagates immediately, carrying
the counters at the moment of the throw). -/
def flushBatchedUpdatesPool : List (Option Nat) → PoolCounters →
    Except (Nat × PoolCounters) PoolCounters
  | [], c => Except.ok c
  | some e :: _, c => Except.error (e, c.acquireFlush)
  | none :: rest, c => flushBatchedUpdatesPool rest c.acquireFlush.releaseFlush

/-- Counterexample to C5 as stated: a drain whose single pass's
`transaction.perform` throws leaves the acquired flush transaction (and its
pooled `CallbackQueue` and reconcile transaction) unreleased — the release on
line 252 is skipped because it is not in a finally block. -/
theorem flushBatchedUpdatesPool_counterexample :
    flushBatchedUpdatesPool [some 7] ⟨0, 0, 0, 0, 0, 0⟩ =
      Except.error (7, ⟨1, 0, 1, 0, 1, 0⟩) ∧
    ¬PoolCounters.balanced ⟨1, 0, 1, 0, 1, 0⟩ :=
  ⟨rfl, by decide⟩

/-- Claim C5 (amended): on every drain in which each `transaction.perform`
returns normally, every pooled object acquired by `flushBatchedUpdates` (the
flush transaction and, through its destructor, its `CallbackQueue` and
reconcile transaction) is released exactly once, so the pools end balanced;
but on the path where a `perform` throws, the instances acquired for that
pass are not released (each pool is left exactly one release short). -/
theorem flushBatchedUpdatesPool_release_discipline (passes : List (Option Nat))
    (c : PoolCounters) (hbal : c.balanced) :
    (∀ d, flushBatchedUpdatesPool passes c = Except.ok d → d.balanced) ∧
    (∀ e d, flushBatchedUpdatesPool passes c = Except.error (e, d) →
      d.flushAcq = d.flushRel + 1 ∧ d.cbqAcq = d.cbqRel + 1 ∧
        d.rtAcq = d.rtRel + 1) := by
  induction passes generalizing c with
  | nil =>
    refine ⟨?_, ?_⟩
    · intro d hd
      simp only [flushBatchedUpdatesPool, Except.ok.injEq] at hd
      rw [← hd]
      exact hbal
    · intro e d hd
      simp only [flushBatchedUpdatesPool] at hd
      exact Except.noConfusion hd
  | cons outcome rest ih =>
    obtain ⟨h1, h2, h3⟩ := hbal
    have hbal1 : (c.acquireFlush.releaseFlush).balanced := by
      simp [PoolCounters.acquireFlush, PoolCounters.releaseFlush,
        PoolCounters.balanced, h1, h2, h3]
    refine ⟨?_, ?_⟩
    · intro d hd
      cases outcome with
      | some e =>
        simp only [flushBatchedUpdatesPool] at hd
        exact Except.noConfusion hd
      | none =>
        exact (ih _ hbal1).1 d hd
    · intro e d hd
      cases outcome with
      | some e2 =>
        simp only [flushBatchedUpdatesPool, Except.error.injEq,
          Prod.mk.injEq] at hd
        rw [← hd.2]
        simp [PoolCounters.acquireFlush, h1, h2, h3]
      | none =>
        exact (ih _ hbal1).2 e d hd

/-- Witness for C5 (amended): a three-pass drain with no throw ends with all
pools balanced. -/
theorem flushBatchedUpdatesPool_release_discipline_witness :
    PoolCounters.balanced ⟨3, 3, 3, 3, 3, 3⟩ := by
  have h := (flushBatchedUpdatesPool_release_discipline [none, none, none]
    ⟨0, 0, 0, 0, 0, 0⟩ (by decide)).1 ⟨3, 3, 3, 3, 3, 3⟩ rfl
  exact h

/-! ## The batched-update scheduler

Embedding of the dirty queue and flush engine of ReactUpdates.js together
with `ReactReconciler.performUpdateIfNecessary` (src/unnamed/part_001, lines
172-198).  Components are identified by ids; `components` maps each id to its
mutable fields `_mountOrder`, `_updateBatchNumber` and `_pendingCallbacks`.
The node-kind `internalInstance.performUpdateIfNecessary` is Modelled from the
spec (§3/§4.4, ReactCompositeComponent is not in the snapshot): it clears the
node's scheduled tag and may synchronously schedule further updates, given by
the behaviour map `beh`; likewise the default batching strategy (§4.3) is
modelled as: open the batching scope, run the enqueues, flush while the scope
is still open, then close the scope.  A trace collects every dispatcher
invocation, every delegation to a node-kind implementation (with its flush
generation), and every callback notification.  `flushBatchedUpdates` takes
fuel because cascades may diverge; `none` means fuel ran out or a fatal
invariant fired. -/

/-- Component identity (JS object reference). -/
abbrev CompId := Nat

/-- The scheduler-relevant mutable fields of an internal component instance. -/
structure Component where
  mountOrder : Int
  updateBatchNumber : Option Nat
  pendingCallbacks : Option (List Nat)
deriving DecidableEq, Repr

/-- Observable scheduler events: a `ReactReconciler.performUpdateIfNecessary`
invocation, a delegation to the node-kind implementation (a reconciliation,
tagged with the flush generation), and a callback notification. -/
inductive SchedEvent where
  | dispatch (cid : CompId)
  | reconcile (cid : CompId) (gen : Nat)
  | notify (callback : Nat) (context : Nat)
deriving DecidableEq, Repr

/-- The module-level state of ReactUpdates.js plus all component instances
and the event trace. -/
structure SchedState where
  components : CompId → Component
  dirtyComponents : List CompId
  updateBatchNumber : Nat
  isBatchingUpdates : Bool
  asapCallbackQueue : List (Nat × Nat)
  asapEnqueued : Bool
  trace : List SchedEvent

/-- What each component's node-kind implementation synchronously enqueues
when it is reconciled (Modelled from the spec; stands for setState calls made
from the node's own update). -/
abbrev Behavior := CompId → List CompId

def SchedState.setComp (s : SchedState) (cid : CompId) (c : Component) :
    SchedState :=
  { s with components := fun j => if j = cid then c else s.components j }

def SchedState.emit (s : SchedState) (e : SchedEvent) : SchedState :=
  { s with trace := s.trace ++ [e] }

/-- `enqueueUpdate(component)` on the `isBatchingUpdates` path (ReactUpdates.js
lines 283-286): always push onto `dirtyComponents`, and tag
`_updateBatchNumber = updateBatchNumber + 1` only when the tag is null.  (The
non-batching path wraps this very call in a batching scope; see
`batchedUpdates` below.) -/
def enqueueUpdate (s : SchedState) (cid : CompId) : SchedState :=
  let s1 := { s with dirtyComponents := s.dirtyComponents ++ [cid] }
  if (s1.components cid).updateBatchNumber = none then
    s1.setComp cid
      { s1.components cid with updateBatchNumber := some (s1.updateBatchNumber + 1) }
  else
    s1

/-- `ReactReconciler.performUpdateIfNecessary(internalInstance, transaction,
updateBatchNumber)`: skip (warning only) unless the instance's tag equals the
current batch number, otherwise delegate to the node-kind implementation —
Modelled from the spec: the delegate clears the scheduled tag and runs the
component's behaviour (its synchronous re-entrant `enqueueUpdate` calls). -/
def performUpdateIfNecessary (beh : Behavior) (s : SchedState) (cid : CompId) :
    SchedState :=
  let s1 := s.emit (SchedEvent.dispatch cid)
  if (s1.components cid).updateBatchNumber ≠ some s1.updateBatchNumber then
    s1
  else
    let s2 := s1.emit (SchedEvent.reconcile cid s1.updateBatchNumber)
    let s3 := s2.setComp cid { s2.components cid with updateBatchNumber := none }
    (beh cid).foldl enqueueUpdate s3

/-- The body of the `for (var i = 0; i < len; i++)` loop of
`runBatchedUpdates`, written with the structurally decreasing count of
remaining iterations `len - i` as first argument so that it evaluates by
kernel reduction: read `dirtyComponents[i]` live, stash and null the
component's `_pendingCallbacks`, dispatch it, then enqueue the stashed
callbacks into the flush transaction's callback queue with context
`component.getPublicInstance()` (modelled by the component id). -/
def runLoopAux (beh : Behavior) (len : Nat) :
    Nat → Nat → List (Nat × Nat) → SchedState → List (Nat × Nat) × SchedState
  | 0, _, cbq, s => (cbq, s)
  | rem + 1, i, cbq, s =>
    if i < len then
      match s.dirtyComponents.get? i with
      | none => (cbq, s)
      | some cid =>
        let callbacks := (s.components cid).pendingCallbacks
        let s1 := s.setComp cid { s.components cid with pendingCallbacks := none }
        let s2 := performUpdateIfNecessary beh s1 cid
        let cbq2 :=
          match callbacks with
          | some cbs => cbq ++ cbs.map (fun cb => (cb, cid))
          | none => cbq
        runLoopAux beh len rem (i + 1) cbq2 s2
    else (cbq, s)

/-- The loop of `runBatchedUpdates` from index `i` to `len`. -/
def runLoop (beh : Behavior) (len : Nat) (i : Nat) (cbq : List (Nat × Nat))
    (s : SchedState) : List (Nat × Nat) × SchedState :=
  runLoopAux beh len (len - i) i cbq s

/-- `runBatchedUpdates(transaction)` (ReactUpdates.js lines 177-241): fatally
check that the stored dirty-components length matches the live length, sort
`dirtyComponents` by ascending `_mountOrder`, increment `updateBatchNumber`,
then run the dispatch loop with a freshly reset transaction callback queue.
Returns the transaction's callback queue contents and the new state. -/
def runBatchedUpdates (beh : Behavior) (dirtyComponentsLength : Nat)
    (s : SchedState) : Option (List (Nat × Nat) × SchedState) :=
  if dirtyComponentsLength = s.dirtyComponents.length then
    some (runLoop beh dirtyComponentsLength 0 []
      { s with
        dirtyComponents :=
          List.insertionSort
            (fun a b => (s.components a).mountOrder ≤ (s.components b).mountOrder)
            s.dirtyComponents
        updateBatchNumber := s.updateBatchNumber + 1 })
  else none

/-- `queue.notifyAll()` for a (well-formed) scheduler-side callback queue:
record one notify event per pair, in FIFO order. -/
def notifyList (cbq : List (Nat × Nat)) (s : SchedState) : SchedState :=
  { s with trace := s.trace ++ cbq.map (fun p => SchedEvent.notify p.1 p.2) }

/-- `flushBatchedUpdates` (ReactUpdates.js lines 243-263): while
`dirtyComponents` is non-empty or an asap callback is enqueued — perform one
flush transaction (NESTED_UPDATES snapshots the dirty length; the method is
`runBatchedUpdates`; NESTED_UPDATES.close splices off the processed prefix and
recursively re-invokes the drain when the queue grew, else clears it;
UPDATE_QUEUEING.close then notifies the transaction's callback queue) — and
then drain the asap queue. -/
def flushBatchedUpdates (beh : Behavior) : Nat → SchedState → Option SchedState
  | 0, _ => none
  | fuel + 1, s =>
    if s.dirtyComponents.length ≠ 0 ∨ s.asapEnqueued = true then
      let afterPass : Option SchedState :=
        if s.dirtyComponents.length ≠ 0 then
          match runBatchedUpdates beh s.dirtyComponents.length s with
          | none => none
          | some (cbq, s1) =>
            let closed : Option SchedState :=
              if s.dirtyComponents.length ≠ s1.dirtyComponents.length then
                flushBatchedUpdates beh fuel
                  { s1 with
                    dirtyComponents :=
                      s1.dirtyComponents.drop s.dirtyComponents.length }
              else some { s1 with dirtyComponents := [] }
            match closed with
            | none => none
            | some s2 => some (notifyList cbq s2)
        else some s
      match afterPass with
      | none => none
      | some s3 =>
        flushBatchedUpdates beh fuel
          (if s3.asapEnqueued then
            notifyList s3.asapCallbackQueue
              { s3 with asapEnqueued := false, asapCallbackQueue := [] }
          else s3)
    else some s

/-- `ReactUpdates.batchedUpdates(fn, ...)` for an `fn` that performs a list of
`enqueueUpdate` calls; the strategy half is Modelled from the spec (§4.3):
when already batching just run `fn`, otherwise open the scope, run `fn`, drain
while the scope is still open, then close the scope. -/
def batchedUpdates (beh : Behavior) (fuel : Nat) (enqs : List CompId)
    (s : SchedState) : Option SchedState :=
  if s.isBatchingUpdates then
    some (enqs.foldl enqueueUpdate s)
  else
    match flushBatchedUpdates beh fuel
        (enqs.foldl enqueueUpdate { s with isBatchingUpdates := true }) with
    | none => none
    | some s2 => some { s2 with isBatchingUpdates := false }

/-- Pristine module state: empty dirty queue, batch counter 0, not batching,
components carrying their mount orders and initial pending callbacks. -/
def initState (mount : CompId → Int) (pcbs : CompId → Option (List Nat)) :
    SchedState :=
  { components := fun cid => ⟨mount cid, none, pcbs cid⟩
    dirtyComponents := []
    updateBatchNumber := 0
    isBatchingUpdates := false
    asapCallbackQueue := []
    asapEnqueued := false
    trace := [] }

/-- `(component, generation)` keys of the reconciliation events of a trace. -/
def reconcileKeys (tr : List SchedEvent) : List (CompId × Nat) :=
  tr.filterMap (fun e =>
    match e with
    | SchedEvent.reconcile cid gen => some (cid, gen)
    | _ => none)

/-- Components in dispatcher-invocation order. -/
def dispatchList (tr : List SchedEvent) : List CompId :=
  tr.filterMap (fun e =>
    match e with
    | SchedEvent.dispatch cid => some cid
    | _ => none)

/-! ### Basic step lemmas for the scheduler -/

/-- The `_updateBatchNumber` tag of a component in a state. -/
def tagOf (s : SchedState) (cid : CompId) : Option Nat :=
  (s.components cid).updateBatchNumber

theorem enqueueUpdate_trace (s : SchedState) (cid : CompId) :
    (enqueueUpdate s cid).trace = s.trace := by
  unfold enqueueUpdate SchedState.setComp
  dsimp only
  split <;> rfl

theorem enqueueUpdate_gen (s : SchedState) (cid : CompId) :
    (enqueueUpdate s cid).updateBatchNumber = s.updateBatchNumber := by
  unfold enqueueUpdate SchedState.setComp
  dsimp only
  split <;> rfl

theorem enqueueUpdate_dirty (s : SchedState) (cid : CompId) :
    (enqueueUpdate s cid).dirtyComponents = s.dirtyComponents ++ [cid] := by
  unfold enqueueUpdate SchedState.setComp
  dsimp only
  split <;> rfl

theorem enqueueUpdate_mountOrder (s : SchedState) (cid j : CompId) :
    ((enqueueUpdate s cid).components j).mountOrder =
      (s.components j).mountOrder := by
  unfold enqueueUpdate SchedState.setComp
  dsimp only
  split
  · by_cases hj : j = cid <;> simp [hj]
  · rfl

theorem enqueueUpdate_pcbs (s : SchedState) (cid j : CompId) :
    ((enqueueUpdate s cid).components j).pendingCallbacks =
      (s.components j).pendingCallbacks := by
  unfold enqueueUpdate SchedState.setComp
  dsimp only
  split
  · by_cases hj : j = cid <;> simp [hj]
  · rfl

theorem enqueueUpdate_tag (s : SchedState) (cid j : CompId) :
    tagOf (enqueueUpdate s cid) j =
      if j = cid ∧ tagOf s cid = none then some (s.updateBatchNumber + 1)
      else tagOf s j := by
  unfold enqueueUpdate SchedState.setComp tagOf
  dsimp only
  split
  · rename_i hnone
    by_cases hj : j = cid <;> simp [hj, hnone]
  · rename_i hnone
    by_cases hj : j = cid
    · subst hj
      simp [hnone]
    · simp [hj, hnone]

theorem foldlEnqueue_trace (ps : List CompId) (s : SchedState) :
    (ps.foldl enqueueUpdate s).trace = s.trace := by
  induction ps generalizing s with
  | nil => rfl
  | cons p ps ih => rw [List.foldl_cons, ih, enqueueUpdate_trace]

theorem foldlEnqueue_gen (ps : List CompId) (s : SchedState) :
    (ps.foldl enqueueUpdate s).updateBatchNumber = s.updateBatchNumber := by
  induction ps generalizing s with
  | nil => rfl
  | cons p ps ih => rw [List.foldl_cons, ih, enqueueUpdate_gen]

theorem foldlEnqueue_dirty (ps : List CompId) (s : SchedState) :
    (ps.foldl enqueueUpdate s).dirtyComponents = s.dirtyComponents ++ ps := by
  induction ps generalizing s with
  | nil => simp
  | cons p ps ih =>
    rw [List.foldl_cons, ih, enqueueUpdate_dirty, List.append_assoc]
    rfl

theorem foldlEnqueue_mountOrder (ps : List CompId) (s : SchedState) (j : CompId) :
    ((ps.foldl enqueueUpdate s).components j).mountOrder =
      (s.components j).mountOrder := by
  induction ps generalizing s with
  | nil => rfl
  | cons p ps ih => rw [List.foldl_cons, ih, enqueueUpdate_mountOrder]

theorem foldlEnqueue_pcbs (ps : List CompId) (s : SchedState) (j : CompId) :
    ((ps.foldl enqueueUpdate s).components j).pendingCallbacks =
      (s.components j).pendingCallbacks := by
  induction ps generalizing s with
  | nil => rfl
  | cons p ps ih => rw [List.foldl_cons, ih, enqueueUpdate_pcbs]

theorem foldlEnqueue_tag (ps : List CompId) (s : SchedState) (j : CompId) :
    tagOf (ps.foldl enqueueUpdate s) j = tagOf s j ∨
      (tagOf s j = none ∧
        tagOf (ps.foldl enqueueUpdate s) j = some (s.updateBatchNumber + 1)) := by
  induction ps generalizing s with
  | nil => exact Or.inl rfl
  | cons p ps ih =>
    rw [List.foldl_cons]
    have hstep := enqueueUpdate_tag s p j
    have hgen := enqueueUpdate_gen s p
    rcases ih (enqueueUpdate s p) with h | ⟨hnone, hset⟩
    · rw [h, hstep]
      split
      · rename_i hc
        exact Or.inr ⟨hc.1 ▸ hc.2, rfl⟩
      · exact Or.inl rfl
    · rw [hstep] at hnone
      split at hnone
      · exact absurd hnone (by simp)
      · exact Or.inr ⟨hnone, by rw [hset, hgen]⟩

theorem foldlEnqueue_tag_ne_none (ps : List CompId) (s : SchedState) (j : CompId)
    (h : tagOf s j ≠ none) : tagOf (ps.foldl enqueueUpdate s) j ≠ none := by
  rcases foldlEnqueue_tag ps s j with h2 | ⟨h2, _⟩
  · rw [h2]; exact h
  · exact absurd h2 h

theorem foldlEnqueue_tag_mem_ne_none (ps : List CompId) (s : SchedState)
    (j : CompId) (hmem : j ∈ ps) :
    tagOf (ps.foldl enqueueUpdate s) j ≠ none := by
  induction ps generalizing s with
  | nil => cases hmem
  | cons p ps ih =>
    rw [List.foldl_cons]
    rcases List.mem_cons.mp hmem with hj | hj
    · subst hj
      apply foldlEnqueue_tag_ne_none
      rw [enqueueUpdate_tag]
      by_cases hnone : tagOf s j = none
      · simp [hnone]
      · simp [hnone]
    · exact ih _ hj

theorem foldlEnqueue_tag_changed_mem (ps : List CompId) (s : SchedState)
    (j : CompId) (h : tagOf (ps.foldl enqueueUpdate s) j ≠ tagOf s j) :
    j ∈ ps := by
  induction ps generalizing s with
  | nil => exact absurd rfl h
  | cons p ps ih =>
    rw [List.foldl_cons] at h
    by_cases hj : j = p
    · exact List.mem_cons.mpr (Or.inl hj)
    · refine List.mem_cons.mpr (Or.inr (ih (enqueueUpdate s p) ?_))
      intro hcontra
      apply h
      rw [hcontra, enqueueUpdate_tag]
      simp [hj]

theorem emit_components (s : SchedState) (e : SchedEvent) :
    (s.emit e).components = s.components := rfl

theorem emit_trace (s : SchedState) (e : SchedEvent) :
    (s.emit e).trace = s.trace ++ [e] := rfl

/-- `ReactReconciler.performUpdateIfNecessary` either skips (tag mismatch) or
delegates: the exact two outcomes. -/
theorem performUpdateIfNecessary_cases (beh : Behavior) (s : SchedState)
    (cid : CompId) :
    (tagOf s cid ≠ some s.updateBatchNumber ∧
      performUpdateIfNecessary beh s cid = s.emit (SchedEvent.dispatch cid)) ∨
    (tagOf s cid = some s.updateBatchNumber ∧
      performUpdateIfNecessary beh s cid =
        (beh cid).foldl enqueueUpdate
          (((s.emit (SchedEvent.dispatch cid)).emit
              (SchedEvent.reconcile cid s.updateBatchNumber)).setComp cid
            { s.components cid with updateBatchNumber := none })) := by
  by_cases htag : tagOf s cid = some s.updateBatchNumber
  · refine Or.inr ⟨htag, ?_⟩
    unfold performUpdateIfNecessary
    rw [if_neg]
    · rfl
    · simpa [SchedState.emit, tagOf] using htag
  · refine Or.inl ⟨htag, ?_⟩
    unfold performUpdateIfNecessary
    rw [if_pos]
    simpa [SchedState.emit, tagOf] using htag

/-- Claim C10: `enqueueUpdate` always appends the component to
`dirtyComponents`, even when it is already present (no deduplication at
enqueue time), and assigns `_updateBatchNumber = updateBatchNumber + 1` only
when the component's tag is null, so a component already tagged for a pending
generation keeps its existing tag when scheduled again; no other component's
tag changes. -/
theorem enqueueUpdate_no_dedup_first_tag_wins (s : SchedState) (cid : CompId) :
    (enqueueUpdate s cid).dirtyComponents = s.dirtyComponents ++ [cid] ∧
    tagOf (enqueueUpdate s cid) cid =
      (if tagOf s cid = none then some (s.updateBatchNumber + 1)
       else tagOf s cid) ∧
    (∀ j, j ≠ cid → tagOf (enqueueUpdate s cid) j = tagOf s j) := by
  refine ⟨enqueueUpdate_dirty s cid, ?_, ?_⟩
  · rw [enqueueUpdate_tag]
    by_cases hnone : tagOf s cid = none <;> simp [hnone]
  · intro j hj
    rw [enqueueUpdate_tag]
    simp [hj]

/-- Witness for C10: scheduling the already-tagged component `5` again keeps
its tag, appends it to the queue a second time, and leaves component `7`
untouched. -/
theorem enqueueUpdate_no_dedup_first_tag_wins_witness :
    tagOf
      (enqueueUpdate
        ⟨fun cid => ⟨0, if cid = 5 then some 3 else none, none⟩,
          [5], 0, true, [], false, []⟩ 5) 7 =
      tagOf
        ⟨fun cid => ⟨0, if cid = 5 then some 3 else none, none⟩,
          [5], 0, true, [], false, []⟩ 7 :=
  (enqueueUpdate_no_dedup_first_tag_wins
    ⟨fun cid => ⟨0, if cid = 5 then some 3 else none, none⟩,
      [5], 0, true, [], false, []⟩ 5).2.2 7 (by decide)

/-! ### Trace-projection lemmas -/

theorem reconcileKeys_append (t u : List SchedEvent) :
    reconcileKeys (t ++ u) = reconcileKeys t ++ reconcileKeys u := by
  simp [reconcileKeys, List.filterMap_append]

theorem dispatchList_append (t u : List SchedEvent) :
    dispatchList (t ++ u) = dispatchList t ++ dispatchList u := by
  simp [dispatchList, List.filterMap_append]

theorem mem_reconcileKeys (t : List SchedEvent) (j : CompId) (g : Nat) :
    (j, g) ∈ reconcileKeys t ↔ SchedEvent.reconcile j g ∈ t := by
  unfold reconcileKeys
  rw [List.mem_filterMap]
  constructor
  · rintro ⟨e, he, hfe⟩
    cases e with
    | reconcile j2 g2 =>
      simp only [Option.some.injEq, Prod.mk.injEq] at hfe
      rw [← hfe.1, ← hfe.2]
      exact he
    | dispatch _ => simp at hfe
    | notify _ _ => simp at hfe
  · intro he
    exact ⟨SchedEvent.reconcile j g, he, rfl⟩

theorem reconcileKeys_notify (ps : List (Nat × Nat)) :
    reconcileKeys (ps.map (fun p => SchedEvent.notify p.1 p.2)) = [] := by
  induction ps with
  | nil => rfl
  | cons p ps ih =>
    simp only [List.map_cons, reconcileKeys, List.filterMap_cons]
    exact ih

/-! ### performUpdateIfNecessary lemmas -/

theorem perform_gen (beh : Behavior) (s : SchedState) (cid : CompId) :
    (performUpdateIfNecessary beh s cid).updateBatchNumber =
      s.updateBatchNumber := by
  rcases performUpdateIfNecessary_cases beh s cid with ⟨_, heq⟩ | ⟨_, heq⟩
  · rw [heq]; rfl
  · rw [heq, foldlEnqueue_gen]; rfl

theorem perform_trace (beh : Behavior) (s : SchedState) (cid : CompId) :
    (performUpdateIfNecessary beh s cid).trace = s.trace ++ [SchedEvent.dispatch cid] ∨
    (performUpdateIfNecessary beh s cid).trace =
      s.trace ++ [SchedEvent.dispatch cid,
        SchedEvent.reconcile cid s.updateBatchNumber] := by
  rcases performUpdateIfNecessary_cases beh s cid with ⟨_, heq⟩ | ⟨_, heq⟩
  · exact Or.inl (by rw [heq]; rfl)
  · refine Or.inr ?_
    rw [heq, foldlEnqueue_trace]
    simp [SchedState.setComp, SchedState.emit]

theorem perform_trace_prefix (beh : Behavior) (s : SchedState) (cid : CompId) :
    s.trace <+: (performUpdateIfNecessary beh s cid).trace := by
  rcases perform_trace beh s cid with h | h <;>
    exact h ▸ List.prefix_append _ _

theorem perform_dispatchList (beh : Behavior) (s : SchedState) (cid : CompId) :
    dispatchList (performUpdateIfNecessary beh s cid).trace =
      dispatchList s.trace ++ [cid] := by
  rcases perform_trace beh s cid with h | h <;>
    simp [h, dispatchList_append, dispatchList]

theorem perform_new_reconcile (beh : Behavior) (s : SchedState) (cid : CompId)
    (j : CompId) (g : Nat)
    (hmem : SchedEvent.reconcile j g ∈ (performUpdateIfNecessary beh s cid).trace) :
    SchedEvent.reconcile j g ∈ s.trace ∨
      (j = cid ∧ g = s.updateBatchNumber ∧
        tagOf s cid = some s.updateBatchNumber) := by
  rcases performUpdateIfNecessary_cases beh s cid with ⟨_, heq⟩ | ⟨htag, heq⟩
  · rw [heq] at hmem
    rcases List.mem_append.mp hmem with h | h
    · exact Or.inl h
    · simp at h
  · rw [heq, foldlEnqueue_trace] at hmem
    replace hmem : SchedEvent.reconcile j g ∈
        (s.trace ++ [SchedEvent.dispatch cid]) ++
          [SchedEvent.reconcile cid s.updateBatchNumber] := hmem
    rw [List.append_assoc] at hmem
    rcases List.mem_append.mp hmem with h | h
    · exact Or.inl h
    · rcases List.mem_append.mp h with h2 | h2
      · cases List.mem_singleton.mp h2
      · cases List.mem_singleton.mp h2
        exact Or.inr ⟨rfl, rfl, htag⟩

theorem perform_reconcile_current (beh : Behavior) (s : SchedState) (cid : CompId)
    (htag : tagOf s cid = some s.updateBatchNumber) :
    SchedEvent.reconcile cid s.updateBatchNumber ∈
      (performUpdateIfNecessary beh s cid).trace := by
  rcases performUpdateIfNecessary_cases beh s cid with ⟨hne, _⟩ | ⟨_, heq⟩
  · exact absurd htag hne
  · rw [heq, foldlEnqueue_trace]
    show SchedEvent.reconcile cid s.updateBatchNumber ∈
      (s.trace ++ [SchedEvent.dispatch cid]) ++
        [SchedEvent.reconcile cid s.updateBatchNumber]
    simp

theorem perform_dirty (beh : Behavior) (s : SchedState) (cid : CompId) :
    (performUpdateIfNecessary beh s cid).dirtyComponents = s.dirtyComponents ∨
    (performUpdateIfNecessary beh s cid).dirtyComponents =
      s.dirtyComponents ++ beh cid := by
  rcases performUpdateIfNecessary_cases beh s cid with ⟨_, heq⟩ | ⟨_, heq⟩
  · exact Or.inl (by rw [heq]; rfl)
  · refine Or.inr ?_
    rw [heq, foldlEnqueue_dirty]
    rfl

theorem perform_dirty_prefix (beh : Behavior) (s : SchedState) (cid : CompId) :
    s.dirtyComponents <+: (performUpdateIfNecessary beh s cid).dirtyComponents := by
  rcases perform_dirty beh s cid with h | h
  · rw [h]
  · rw [h]; exact List.prefix_append _ _

theorem perform_pcbs (beh : Behavior) (s : SchedState) (cid j : CompId) :
    ((performUpdateIfNecessary beh s cid).components j).pendingCallbacks =
      (s.components j).pendingCallbacks := by
  rcases performUpdateIfNecessary_cases beh s cid with ⟨_, heq⟩ | ⟨_, heq⟩
  · rw [heq]; rfl
  · rw [heq, foldlEnqueue_pcbs]
    by_cases hj : j = cid <;> simp [SchedState.setComp, SchedState.emit, hj]

theorem perform_mountOrder (beh : Behavior) (s : SchedState) (cid j : CompId) :
    ((performUpdateIfNecessary beh s cid).components j).mountOrder =
      (s.components j).mountOrder := by
  rcases performUpdateIfNecessary_cases beh s cid with ⟨_, heq⟩ | ⟨_, heq⟩
  · rw [heq]; rfl
  · rw [heq, foldlEnqueue_mountOrder]
    by_cases hj : j = cid <;> simp [SchedState.setComp, SchedState.emit, hj]

theorem perform_tag_cases (beh : Behavior) (s : SchedState) (cid j : CompId) :
    tagOf (performUpdateIfNecessary beh s cid) j = tagOf s j ∨
    (j = cid ∧ tagOf s cid = some s.updateBatchNumber ∧
      (tagOf (performUpdateIfNecessary beh s cid) j = none ∨
       tagOf (performUpdateIfNecessary beh s cid) j = some (s.updateBatchNumber + 1))) ∨
    (tagOf s j = none ∧
      tagOf (performUpdateIfNecessary beh s cid) j = some (s.updateBatchNumber + 1)) := by
  rcases performUpdateIfNecessary_cases beh s cid with ⟨_, heq⟩ | ⟨htag, heq⟩
  · exact Or.inl (by rw [heq]; rfl)
  · rw [heq]
    set smid := ((s.emit (SchedEvent.dispatch cid)).emit
      (SchedEvent.reconcile cid s.updateBatchNumber)).setComp cid
      { s.components cid with updateBatchNumber := none } with hsmid
    have hmidgen : smid.updateBatchNumber = s.updateBatchNumber := rfl
    have hmidtag : ∀ k, tagOf smid k = if k = cid then none else tagOf s k := by
      intro k
      by_cases hk : k = cid <;>
        simp [hsmid, SchedState.setComp, SchedState.emit, tagOf, hk]
    rcases foldlEnqueue_tag (beh cid) smid j with h | ⟨hnone, hset⟩
    · rw [h, hmidtag]
      by_cases hj : j = cid
      · subst hj
        exact Or.inr (Or.inl ⟨rfl, htag, Or.inl (by simp)⟩)
      · simp [hj]
    · rw [hmidtag] at hnone
      rw [hmidgen] at hset
      by_cases hj : j = cid
      · subst hj
        exact Or.inr (Or.inl ⟨rfl, htag, Or.inr hset⟩)
      · rw [if_neg hj] at hnone
        exact Or.inr (Or.inr ⟨hnone, hset⟩)

theorem perform_tag_current (beh : Behavior) (s : SchedState) (cid : CompId)
    (htag : tagOf s cid = some s.updateBatchNumber) :
    tagOf (performUpdateIfNecessary beh s cid) cid = none ∨
    tagOf (performUpdateIfNecessary beh s cid) cid =
      some (s.updateBatchNumber + 1) := by
  rcases performUpdateIfNecessary_cases beh s cid with ⟨hne, _⟩ | ⟨_, heq⟩
  · exact absurd htag hne
  · rw [heq]
    set smid := ((s.emit (SchedEvent.dispatch cid)).emit
      (SchedEvent.reconcile cid s.updateBatchNumber)).setComp cid
      { s.components cid with updateBatchNumber := none } with hsmid
    have hmidtag : tagOf smid cid = none := by
      simp [hsmid, SchedState.setComp, SchedState.emit, tagOf]
    rcases foldlEnqueue_tag (beh cid) smid cid with h | ⟨_, hset⟩
    · rw [h, hmidtag]
      exact Or.inl rfl
    · rw [hset]
      exact Or.inr rfl

theorem perform_tag_G_persists (beh : Behavior) (s : SchedState) (cid j : CompId)
    (h : tagOf (performUpdateIfNecessary beh s cid) j = some s.updateBatchNumber) :
    tagOf s j = some s.updateBatchNumber := by
  rcases perform_tag_cases beh s cid j with h2 | ⟨_, _, h2 | h2⟩ | ⟨_, h2⟩
  · rw [← h2]; exact h
  · rw [h] at h2; cases h2
  · rw [h] at h2; simp at h2
  · rw [h] at h2; simp at h2

theorem perform_newtag (beh : Behavior) (s : SchedState) (cid j : CompId)
    (h : tagOf (performUpdateIfNecessary beh s cid) j =
      some (s.updateBatchNumber + 1))
    (hold : tagOf s j ≠ some (s.updateBatchNumber + 1)) :
    j ∈ (performUpdateIfNecessary beh s cid).dirtyComponents.drop
      s.dirtyComponents.length := by
  rcases performUpdateIfNecessary_cases beh s cid with ⟨_, heq⟩ | ⟨htag, heq⟩
  · rw [heq] at h
    exact absurd h hold
  · rw [heq]
    set smid := ((s.emit (SchedEvent.dispatch cid)).emit
      (SchedEvent.reconcile cid s.updateBatchNumber)).setComp cid
      { s.components cid with updateBatchNumber := none } with hsmid
    have hmiddirty : smid.dirtyComponents = s.dirtyComponents := rfl
    have hmidtag : ∀ k, tagOf smid k = if k = cid then none else tagOf s k := by
      intro k
      by_cases hk : k = cid <;>
        simp [hsmid, SchedState.setComp, SchedState.emit, tagOf, hk]
    have hdirty : ((beh cid).foldl enqueueUpdate smid).dirtyComponents =
        s.dirtyComponents ++ beh cid := by
      rw [foldlEnqueue_dirty, hmiddirty]
    rw [hdirty, List.drop_left]
    rw [heq] at h
    have hchanged : tagOf ((beh cid).foldl enqueueUpdate smid) j ≠ tagOf smid j := by
      rw [h, hmidtag]
      by_cases hj : j = cid
      · simp [hj]
      · rw [if_neg hj]
        exact fun hc => hold hc.symm
    exact foldlEnqueue_tag_changed_mem (beh cid) smid j hchanged

/-! ### The exactly-once invariant (for C1) -/

/-- Reconciliation-key invariant: the `(component, generation)` keys of the
trace's reconcile events are distinct, every key's generation is at most the
current batch number, and a component tagged `some g` has no `(cid, g)` key
yet. -/
def SchedInv (s : SchedState) : Prop :=
  (reconcileKeys s.trace).Nodup ∧
  (∀ k ∈ reconcileKeys s.trace, k.2 ≤ s.updateBatchNumber) ∧
  (∀ cid g, tagOf s cid = some g → (cid, g) ∉ reconcileKeys s.trace)

theorem enqueueUpdate_inv (s : SchedState) (cid : CompId) (h : SchedInv s) :
    SchedInv (enqueueUpdate s cid) := by
  obtain ⟨h1, h2, h3⟩ := h
  refine ⟨?_, ?_, ?_⟩
  · rw [enqueueUpdate_trace]; exact h1
  · rw [enqueueUpdate_trace, enqueueUpdate_gen]; exact h2
  · intro j g htag
    rw [enqueueUpdate_trace]
    rw [enqueueUpdate_tag] at htag
    split at htag
    · rename_i hc
      cases htag
      intro hmem
      have := h2 _ hmem
      simp at this
    · exact h3 j g htag

theorem foldlEnqueue_inv (ps : List CompId) (s : SchedState) (h : SchedInv s) :
    SchedInv (ps.foldl enqueueUpdate s) := by
  induction ps generalizing s with
  | nil => exact h
  | cons p ps ih => exact ih _ (enqueueUpdate_inv s p h)

theorem perform_inv (beh : Behavior) (s : SchedState) (cid : CompId)
    (h : SchedInv s) : SchedInv (performUpdateIfNecessary beh s cid) := by
  obtain ⟨h1, h2, h3⟩ := h
  rcases performUpdateIfNecessary_cases beh s cid with ⟨_, heq⟩ | ⟨htag, heq⟩
  · rw [heq]
    refine ⟨?_, ?_, ?_⟩
    · simpa [SchedState.emit, reconcileKeys_append, reconcileKeys] using h1
    · simpa [SchedState.emit, reconcileKeys_append, reconcileKeys] using h2
    · intro j g htag2
      simpa [SchedState.emit, reconcileKeys_append, reconcileKeys] using h3 j g htag2
  · rw [heq]
    set smid := ((s.emit (SchedEvent.dispatch cid)).emit
      (SchedEvent.reconcile cid s.updateBatchNumber)).setComp cid
      { s.components cid with updateBatchNumber := none } with hsmid
    have hkeys : reconcileKeys smid.trace =
        reconcileKeys s.trace ++ [(cid, s.updateBatchNumber)] := by
      simp [hsmid, SchedState.setComp, SchedState.emit, reconcileKeys_append,
        reconcileKeys]
    have hmidgen : smid.updateBatchNumber = s.updateBatchNumber := rfl
    have hmidtag : ∀ k, tagOf smid k = if k = cid then none else tagOf s k := by
      intro k
      by_cases hk : k = cid <;>
        simp [hsmid, SchedState.setComp, SchedState.emit, tagOf, hk]
    have hinvmid : SchedInv smid := by
      refine ⟨?_, ?_, ?_⟩
      · rw [hkeys]
        refine List.Nodup.append h1 (by simp) ?_
        intro a ha hb
        simp only [List.mem_singleton] at hb
        subst hb
        exact h3 cid s.updateBatchNumber htag ha
      · rw [hkeys, hmidgen]
        intro k hk
        rcases List.mem_append.mp hk with hk | hk
        · exact h2 k hk
        · simp only [List.mem_singleton] at hk
          subst hk
          exact Nat.le_refl _
      · intro j g htag2
        rw [hkeys]
        rw [hmidtag] at htag2
        split at htag2
        · cases htag2
        · rename_i hj
          intro hmem
          rcases List.mem_append.mp hmem with hm | hm
          · exact h3 j g htag2 hm
          · simp only [List.mem_singleton, Prod.mk.injEq] at hm
            exact hj hm.1
    exact foldlEnqueue_inv (beh cid) smid hinvmid

/-! ### runLoop lemmas -/

theorem get?_of_prefix {l l' : List CompId} (h : l <+: l') {k : Nat} {x : CompId}
    (hget : l.get? k = some x) : l'.get? k = some x := by
  obtain ⟨t, rfl⟩ := h
  rw [List.get?_eq_getElem?] at *
  rw [List.getElem?_append_left]
  · exact hget
  · exact (List.getElem?_eq_some.mp hget).1

theorem runLoop_stop (beh : Behavior) (len i : Nat) (cbq : List (Nat × Nat))
    (s : SchedState) (h : ¬ i < len) : runLoop beh len i cbq s = (cbq, s) := by
  unfold runLoop
  rw [Nat.sub_eq_zero_of_le (Nat.le_of_not_lt h)]
  rfl

theorem runLoop_none (beh : Behavior) (len i : Nat) (cbq : List (Nat × Nat))
    (s : SchedState) (h : i < len) (hget : s.dirtyComponents.get? i = none) :
    runLoop beh len i cbq s = (cbq, s) := by
  unfold runLoop
  have hsub : len - i = (len - (i + 1)) + 1 := by omega
  rw [hsub, runLoopAux, if_pos h, hget]

theorem runLoop_step (beh : Behavior) (len i : Nat) (cbq : List (Nat × Nat))
    (s : SchedState) (cid : CompId) (h : i < len)
    (hget : s.dirtyComponents.get? i = some cid) :
    runLoop beh len i cbq s =
      runLoop beh len (i + 1)
        (match (s.components cid).pendingCallbacks with
         | some cbs => cbq ++ cbs.map (fun cb => (cb, cid))
         | none => cbq)
        (performUpdateIfNecessary beh
          (s.setComp cid { s.components cid with pendingCallbacks := none }) cid) := by
  unfold runLoop
  have hsub : len - i = (len - (i + 1)) + 1 := by omega
  rw [hsub, runLoopAux, if_pos h, hget]

/-- Induction along the loop structure of `runLoop`. -/
theorem runLoop_induct (beh : Behavior) (len : Nat)
    (motive : Nat → List (Nat × Nat) → SchedState → Prop)
    (case1 : ∀ i cbq s, i < len → s.dirtyComponents.get? i = none →
      motive i cbq s)
    (case2 : ∀ i cbq s, i < len → ∀ cid, s.dirtyComponents.get? i = some cid →
      let callbacks := (s.components cid).pendingCallbacks
      let s1 := s.setComp cid { s.components cid with pendingCallbacks := none }
      let s2 := performUpdateIfNecessary beh s1 cid
      let cbq2 :=
        match callbacks with
        | some cbs => cbq ++ cbs.map (fun cb => (cb, cid))
        | none => cbq
      motive (i + 1) cbq2 s2 → motive i cbq s)
    (case3 : ∀ i cbq s, ¬ i < len → motive i cbq s) :
    ∀ i cbq s, motive i cbq s := by
  have H : ∀ n i cbq s, len - i ≤ n → motive i cbq s := by
    intro n
    induction n with
    | zero =>
      intro i cbq s hle
      refine case3 i cbq s ?_
      omega
    | succ n ihn =>
      intro i cbq s hle
      by_cases h : i < len
      · cases hget : s.dirtyComponents.get? i with
        | none => exact case1 i cbq s h hget
        | some cid =>
          exact case2 i cbq s h cid hget (ihn (i + 1) _ _ (by omega))
      · exact case3 i cbq s h
  intro i cbq s
  exact H (len - i) i cbq s (Nat.le_refl _)

theorem runLoop_gen (beh : Behavior) (len i : Nat) (cbq : List (Nat × Nat))
    (s : SchedState) :
    (runLoop beh len i cbq s).2.updateBatchNumber = s.updateBatchNumber := by
  induction i, cbq, s using runLoop_induct beh len with
  | case1 i cbq s h hget => rw [runLoop_none beh len i cbq s h hget]
  | case2 i cbq s h cid hget callbacks s1 s2 cbq2 ih =>
    rw [runLoop_step beh len i cbq s cid h hget]
    have h1 : s2.updateBatchNumber = s.updateBatchNumber := by
      show (performUpdateIfNecessary beh s1 cid).updateBatchNumber =
        s.updateBatchNumber
      rw [perform_gen]
      rfl
    exact ih.trans h1
  | case3 i cbq s h => rw [runLoop_stop beh len i cbq s h]

theorem runLoop_trace_pfx (beh : Behavior) (len i : Nat)
    (cbq : List (Nat × Nat)) (s : SchedState) :
    s.trace <+: (runLoop beh len i cbq s).2.trace := by
  induction i, cbq, s using runLoop_induct beh len with
  | case1 i cbq s h hget =>
    rw [runLoop_none beh len i cbq s h hget]
  | case2 i cbq s h cid hget callbacks s1 s2 cbq2 ih =>
    rw [runLoop_step beh len i cbq s cid h hget]
    have h1 : s.trace <+: s2.trace := by
      show s.trace <+: (performUpdateIfNecessary beh s1 cid).trace
      have : s.trace = s1.trace := rfl
      rw [this]
      exact perform_trace_prefix beh s1 cid
    exact h1.trans ih
  | case3 i cbq s h =>
    rw [runLoop_stop beh len i cbq s h]

theorem runLoop_dirty_prefix (beh : Behavior) (len i : Nat)
    (cbq : List (Nat × Nat)) (s : SchedState) :
    s.dirtyComponents <+: (runLoop beh len i cbq s).2.dirtyComponents := by
  induction i, cbq, s using runLoop_induct beh len with
  | case1 i cbq s h hget =>
    rw [runLoop_none beh len i cbq s h hget]
  | case2 i cbq s h cid hget callbacks s1 s2 cbq2 ih =>
    rw [runLoop_step beh len i cbq s cid h hget]
    have h1 : s.dirtyComponents <+: s2.dirtyComponents := by
      show s.dirtyComponents <+:
        (performUpdateIfNecessary beh s1 cid).dirtyComponents
      have : s.dirtyComponents = s1.dirtyComponents := rfl
      rw [this]
      exact perform_dirty_prefix beh s1 cid
    exact h1.trans ih
  | case3 i cbq s h =>
    rw [runLoop_stop beh len i cbq s h]

theorem runLoop_mountOrder (beh : Behavior) (len i : Nat)
    (cbq : List (Nat × Nat)) (s : SchedState) (j : CompId) :
    ((runLoop beh len i cbq s).2.components j).mountOrder =
      (s.components j).mountOrder := by
  induction i, cbq, s using runLoop_induct beh len with
  | case1 i cbq s h hget => rw [runLoop_none beh len i cbq s h hget]
  | case2 i cbq s h cid hget callbacks s1 s2 cbq2 ih =>
    rw [runLoop_step beh len i cbq s cid h hget]
    have h1 : (s2.components j).mountOrder = (s.components j).mountOrder := by
      show ((performUpdateIfNecessary beh s1 cid).components j).mountOrder =
        (s.components j).mountOrder
      rw [perform_mountOrder]
      show ((s.setComp cid _).components j).mountOrder = _
      by_cases hj : j = cid <;> simp [SchedState.setComp, hj]
    exact ih.trans h1
  | case3 i cbq s h => rw [runLoop_stop beh len i cbq s h]

theorem runLoop_cbq_pfx (beh : Behavior) (len i : Nat)
    (cbq : List (Nat × Nat)) (s : SchedState) :
    cbq <+: (runLoop beh len i cbq s).1 := by
  induction i, cbq, s using runLoop_induct beh len with
  | case1 i cbq s h hget =>
    rw [runLoop_none beh len i cbq s h hget]
  | case2 i cbq s h cid hget callbacks s1 s2 cbq2 ih =>
    rw [runLoop_step beh len i cbq s cid h hget]
    have h1 : cbq <+: cbq2 := by
      show cbq <+:
        (match callbacks with
         | some cbs => cbq ++ cbs.map (fun cb => (cb, cid))
         | none => cbq)
      cases callbacks with
      | some cbs => exact List.prefix_append _ _
      | none => exact List.prefix_refl _
    exact h1.trans ih
  | case3 i cbq s h =>
    rw [runLoop_stop beh len i cbq s h]

theorem runLoop_pcbs (beh : Behavior) (len i : Nat) (cbq : List (Nat × Nat))
    (s : SchedState) (j : CompId) :
    ((runLoop beh len i cbq s).2.components j).pendingCallbacks =
        (s.components j).pendingCallbacks ∨
      ((runLoop beh len i cbq s).2.components j).pendingCallbacks = none := by
  induction i, cbq, s using runLoop_induct beh len with
  | case1 i cbq s h hget =>
    rw [runLoop_none beh len i cbq s h hget]
    exact Or.inl rfl
  | case2 i cbq s h cid hget callbacks s1 s2 cbq2 ih =>
    rw [runLoop_step beh len i cbq s cid h hget]
    have h1 : (s2.components j).pendingCallbacks =
        (s.components j).pendingCallbacks ∨
        (s2.components j).pendingCallbacks = none := by
      show ((performUpdateIfNecessary beh s1 cid).components j).pendingCallbacks =
          (s.components j).pendingCallbacks ∨ _
      rw [perform_pcbs]
      by_cases hj : j = cid
      · refine Or.inr ?_
        subst hj
        show ((s.setComp j
          { s.components j with pendingCallbacks := none }).components j).pendingCallbacks = none
        simp [SchedState.setComp]
      · refine Or.inl ?_
        show ((s.setComp cid
          { s.components cid with pendingCallbacks := none }).components j).pendingCallbacks =
          (s.components j).pendingCallbacks
        simp [SchedState.setComp, hj]
    rcases ih with ih | ih
    · rcases h1 with h1 | h1
      · exact Or.inl (ih.trans h1)
      · exact Or.inr (ih.trans h1)
    · exact Or.inr ih
  | case3 i cbq s h =>
    rw [runLoop_stop beh len i cbq s h]
    exact Or.inl rfl

theorem stash_tag (s : SchedState) (cid j : CompId) :
    tagOf (s.setComp cid { s.components cid with pendingCallbacks := none }) j =
      tagOf s j := by
  by_cases hj : j = cid <;> simp [SchedState.setComp, tagOf, hj]

theorem stash_gen (s : SchedState) (cid : CompId) :
    (s.setComp cid { s.components cid with pendingCallbacks := none }).updateBatchNumber =
      s.updateBatchNumber := rfl

theorem stash_trace (s : SchedState) (cid : CompId) :
    (s.setComp cid { s.components cid with pendingCallbacks := none }).trace =
      s.trace := rfl

theorem stash_dirty (s : SchedState) (cid : CompId) :
    (s.setComp cid { s.components cid with pendingCallbacks := none }).dirtyComponents =
      s.dirtyComponents := rfl

theorem runLoop_dispatchList (beh : Behavior) (len i : Nat)
    (cbq : List (Nat × Nat)) (s : SchedState)
    (hlen : len ≤ s.dirtyComponents.length) :
    dispatchList (runLoop beh len i cbq s).2.trace =
      dispatchList s.trace ++ (s.dirtyComponents.take len).drop i := by
  induction i, cbq, s using runLoop_induct beh len with
  | case1 i cbq s h hget =>
    rw [runLoop_none beh len i cbq s h hget]
    have hle : s.dirtyComponents.length ≤ i := List.get?_eq_none.mp hget
    rw [List.drop_eq_nil_of_le, List.append_nil]
    rw [List.length_take]
    exact le_trans (min_le_right _ _) hle
  | case2 i cbq s h cid hget callbacks s1 s2 cbq2 ih =>
    rw [runLoop_step beh len i cbq s cid h hget]
    have hpre : s.dirtyComponents <+: s2.dirtyComponents := by
      show s.dirtyComponents <+:
        (performUpdateIfNecessary beh s1 cid).dirtyComponents
      exact perform_dirty_prefix beh s1 cid
    have hlen2 : len ≤ s2.dirtyComponents.length :=
      le_trans hlen hpre.length_le
    have htake : s2.dirtyComponents.take len = s.dirtyComponents.take len := by
      show (performUpdateIfNecessary beh s1 cid).dirtyComponents.take len = _
      rcases perform_dirty beh s1 cid with hd | hd
      · rw [hd]; rfl
      · rw [hd]
        exact List.take_append_of_le_length hlen
    have hdl : dispatchList s2.trace = dispatchList s.trace ++ [cid] := by
      show dispatchList (performUpdateIfNecessary beh s1 cid).trace = _
      rw [perform_dispatchList]
      rfl
    have hstep : (s.dirtyComponents.take len).drop i =
        cid :: (s.dirtyComponents.take len).drop (i + 1) := by
      have hi : i < s.dirtyComponents.length :=
        (List.getElem?_eq_some.mp (by rw [← List.get?_eq_getElem?]; exact hget)).1
      have hitake : i < (s.dirtyComponents.take len).length := by
        rw [List.length_take]
        exact lt_min h hi
      rw [List.drop_eq_getElem_cons hitake]
      congr 1
      have := List.getElem?_take (l := s.dirtyComponents) (n := len) (m := i)
      rw [if_pos h] at this
      have hg2 : (s.dirtyComponents.take len)[i]? = some cid := by
        rw [this, ← List.get?_eq_getElem?]
        exact hget
      rw [List.getElem?_eq_some] at hg2
      obtain ⟨h3, h4⟩ := hg2
      exact h4
    rw [ih hlen2, hdl, htake, hstep]
    simp
  | case3 i cbq s h =>
    rw [runLoop_stop beh len i cbq s h]
    rw [List.drop_eq_nil_of_le, List.append_nil]
    rw [List.length_take]
    exact le_trans (min_le_left _ _) (Nat.le_of_not_lt h)

theorem runLoop_inv (beh : Behavior) (len i : Nat) (cbq : List (Nat × Nat))
    (s : SchedState) (hinv : SchedInv s) : SchedInv (runLoop beh len i cbq s).2 := by
  induction i, cbq, s using runLoop_induct beh len with
  | case1 i cbq s h hget =>
    rw [runLoop_none beh len i cbq s h hget]
    exact hinv
  | case2 i cbq s h cid hget callbacks s1 s2 cbq2 ih =>
    rw [runLoop_step beh len i cbq s cid h hget]
    refine ih ?_
    show SchedInv (performUpdateIfNecessary beh s1 cid)
    refine perform_inv beh s1 cid ?_
    obtain ⟨h1, h2, h3⟩ := hinv
    refine ⟨h1, h2, ?_⟩
    intro j g htag
    rw [stash_tag] at htag
    exact h3 j g htag
  | case3 i cbq s h =>
    rw [runLoop_stop beh len i cbq s h]
    exact hinv

theorem runLoop_tags3 (beh : Behavior) (len i : Nat) (cbq : List (Nat × Nat))
    (s : SchedState)
    (h3 : ∀ j, tagOf s j = none ∨ tagOf s j = some s.updateBatchNumber ∨
      tagOf s j = some (s.updateBatchNumber + 1)) (j : CompId) :
    tagOf (runLoop beh len i cbq s).2 j = none ∨
      tagOf (runLoop beh len i cbq s).2 j = some s.updateBatchNumber ∨
      tagOf (runLoop beh len i cbq s).2 j = some (s.updateBatchNumber + 1) := by
  induction i, cbq, s using runLoop_induct beh len with
  | case1 i cbq s h hget =>
    rw [runLoop_none beh len i cbq s h hget]
    exact h3 j
  | case2 i cbq s h cid hget callbacks s1 s2 cbq2 ih =>
    rw [runLoop_step beh len i cbq s cid h hget]
    have hgen1 : s1.updateBatchNumber = s.updateBatchNumber := rfl
    have hgen2 : s2.updateBatchNumber = s.updateBatchNumber := by
      show (performUpdateIfNecessary beh s1 cid).updateBatchNumber = _
      rw [perform_gen]
      exact hgen1
    have h3s2 : ∀ k, tagOf s2 k = none ∨ tagOf s2 k = some s.updateBatchNumber ∨
        tagOf s2 k = some (s.updateBatchNumber + 1) := by
      intro k
      have hcase : tagOf s2 k = tagOf s1 k ∨
          (k = cid ∧ tagOf s1 cid = some s1.updateBatchNumber ∧
            (tagOf s2 k = none ∨ tagOf s2 k = some (s1.updateBatchNumber + 1))) ∨
          (tagOf s1 k = none ∧ tagOf s2 k = some (s1.updateBatchNumber + 1)) :=
        perform_tag_cases beh s1 cid k
      rcases hcase with hc | ⟨_, _, hc⟩ | ⟨_, hc⟩
      · rw [hc, stash_tag]
        exact h3 k
      · rcases hc with hc | hc
        · exact Or.inl hc
        · exact Or.inr (Or.inr hc)
      · exact Or.inr (Or.inr hc)
    have h3s2g : ∀ k, tagOf s2 k = none ∨ tagOf s2 k = some s2.updateBatchNumber ∨
        tagOf s2 k = some (s2.updateBatchNumber + 1) := by
      intro k
      rw [hgen2]
      exact h3s2 k
    have := ih h3s2g
    rw [hgen2] at this
    exact this
  | case3 i cbq s h =>
    rw [runLoop_stop beh len i cbq s h]
    exact h3 j

theorem runLoop_tagG1_persists (beh : Behavior) (len i : Nat)
    (cbq : List (Nat × Nat)) (s : SchedState) (j : CompId)
    (htag : tagOf s j = some (s.updateBatchNumber + 1)) :
    tagOf (runLoop beh len i cbq s).2 j = some (s.updateBatchNumber + 1) := by
  induction i, cbq, s using runLoop_induct beh len with
  | case1 i cbq s h hget =>
    rw [runLoop_none beh len i cbq s h hget]
    exact htag
  | case2 i cbq s h cid hget callbacks s1 s2 cbq2 ih =>
    rw [runLoop_step beh len i cbq s cid h hget]
    have hgen2 : s2.updateBatchNumber = s.updateBatchNumber := by
      show (performUpdateIfNecessary beh s1 cid).updateBatchNumber = _
      rw [perform_gen]
      rfl
    have htag1 : tagOf s1 j = some (s.updateBatchNumber + 1) := by
      rw [stash_tag]; exact htag
    have htag2 : tagOf s2 j = some (s.updateBatchNumber + 1) := by
      rcases perform_tag_cases beh s1 cid j with hc | ⟨hj, hcur, _⟩ | ⟨hnone, _⟩
      · show tagOf (performUpdateIfNecessary beh s1 cid) j = _
        rw [hc]  -- hmm hc already states tagOf s2 j = tagOf s1 j
        exact htag1
      · rw [hj] at htag1
        have hgen1 : s1.updateBatchNumber = s.updateBatchNumber := rfl
        rw [htag1, hgen1] at hcur
        have := Option.some.inj hcur
        omega
      · rw [htag1] at hnone
        cases hnone
    have := ih (by rw [hgen2]; exact htag2)
    rw [hgen2] at this
    exact this
  | case3 i cbq s h =>
    rw [runLoop_stop beh len i cbq s h]
    exact htag

theorem get?_some_lt {l : List CompId} {n : Nat} {x : CompId}
    (h : l.get? n = some x) : n < l.length :=
  (List.getElem?_eq_some.mp (by rw [← List.get?_eq_getElem?]; exact h)).1

theorem perform_behavior_tag (beh : Behavior) (s : SchedState) (cid : CompId)
    (htag : tagOf s cid = some s.updateBatchNumber) (B : CompId)
    (hB : B ∈ beh cid) :
    tagOf (performUpdateIfNecessary beh s cid) B ≠ none := by
  rcases performUpdateIfNecessary_cases beh s cid with ⟨hne, _⟩ | ⟨_, heq⟩
  · exact absurd htag hne
  · rw [heq]
    exact foldlEnqueue_tag_mem_ne_none (beh cid) _ B hB

/-- One loop step preserves the pending-position hypothesis: every component
still tagged for the current generation after dispatching position `i` has a
later position in the (grown) dirty list. -/
theorem step_h4 (beh : Behavior) (len i : Nat) (s : SchedState) (cid : CompId)
    (hget : s.dirtyComponents.get? i = some cid)
    (h4 : ∀ j, tagOf s j = some s.updateBatchNumber →
      ∃ k, i ≤ k ∧ k < len ∧ s.dirtyComponents.get? k = some j) :
    ∀ j, tagOf (performUpdateIfNecessary beh
        (s.setComp cid { s.components cid with pendingCallbacks := none }) cid) j =
        some s.updateBatchNumber →
      ∃ k, i + 1 ≤ k ∧ k < len ∧
        (performUpdateIfNecessary beh
          (s.setComp cid
            { s.components cid with pendingCallbacks := none }) cid).dirtyComponents.get? k =
          some j := by
  intro j htag2
  have htag1 : tagOf (s.setComp cid
      { s.components cid with pendingCallbacks := none }) j =
      some s.updateBatchNumber :=
    perform_tag_G_persists beh _ cid j htag2
  have htags : tagOf s j = some s.updateBatchNumber := by
    rw [stash_tag] at htag1
    exact htag1
  obtain ⟨k, hik, hklen, hk⟩ := h4 j htags
  have hkne : k ≠ i := by
    intro hki
    subst hki
    rw [hk] at hget
    have hjcid : j = cid := Option.some.inj hget
    subst hjcid
    have hcur := perform_tag_current beh
      (s.setComp j { s.components j with pendingCallbacks := none }) j
      (by rw [stash_tag]; exact htags)
    have hgenstash : (s.setComp j
        { s.components j with pendingCallbacks := none }).updateBatchNumber =
        s.updateBatchNumber := rfl
    rw [hgenstash] at hcur
    rcases hcur with hc | hc
    · rw [htag2] at hc
      cases hc
    · rw [htag2] at hc
      have := Option.some.inj hc
      omega
  refine ⟨k, ?_, hklen, ?_⟩
  · omega
  · refine get?_of_prefix ?_ hk
    have hp := perform_dirty_prefix beh
      (s.setComp cid { s.components cid with pendingCallbacks := none }) cid
    rw [stash_dirty] at hp
    exact hp

/-- One loop step preserves the three-valued tag discipline. -/
theorem step_h3 (beh : Behavior) (s : SchedState) (cid : CompId)
    (h3 : ∀ j, tagOf s j = none ∨ tagOf s j = some s.updateBatchNumber ∨
      tagOf s j = some (s.updateBatchNumber + 1)) :
    ∀ j, tagOf (performUpdateIfNecessary beh
        (s.setComp cid { s.components cid with pendingCallbacks := none }) cid) j =
          none ∨
      tagOf (performUpdateIfNecessary beh
        (s.setComp cid { s.components cid with pendingCallbacks := none }) cid) j =
          some s.updateBatchNumber ∨
      tagOf (performUpdateIfNecessary beh
        (s.setComp cid { s.components cid with pendingCallbacks := none }) cid) j =
          some (s.updateBatchNumber + 1) := by
  intro j
  rcases perform_tag_cases beh
    (s.setComp cid { s.components cid with pendingCallbacks := none }) cid j with
    hc | ⟨_, _, hc⟩ | ⟨_, hc⟩
  · rw [hc, stash_tag]
    exact h3 j
  · rcases hc with hc | hc
    · exact Or.inl hc
    · exact Or.inr (Or.inr hc)
  · exact Or.inr (Or.inr hc)

/-- During a loop pass, every component tagged for the current generation with
a position in `[i, len)` is reconciled at this generation, and at loop exit no
component remains tagged for the current generation. -/
theorem runLoop_pending_reconciled (beh : Behavior) (len i : Nat)
    (cbq : List (Nat × Nat)) (s : SchedState)
    (h4 : ∀ j, tagOf s j = some s.updateBatchNumber →
      ∃ k, i ≤ k ∧ k < len ∧ s.dirtyComponents.get? k = some j) :
    (∀ j, tagOf s j = some s.updateBatchNumber →
      SchedEvent.reconcile j s.updateBatchNumber ∈ (runLoop beh len i cbq s).2.trace) ∧
    (∀ j, tagOf (runLoop beh len i cbq s).2 j ≠ some s.updateBatchNumber) := by
  induction i, cbq, s using runLoop_induct beh len with
  | case1 i cbq s h hget =>
    rw [runLoop_none beh len i cbq s h hget]
    have hvac : ∀ j, tagOf s j ≠ some s.updateBatchNumber := by
      intro j htag
      obtain ⟨k, hik, _, hk⟩ := h4 j htag
      have hlen := List.get?_eq_none.mp hget
      have := get?_some_lt hk
      omega
    exact ⟨fun j htag => absurd htag (hvac j), hvac⟩
  | case2 i cbq s h cid hget callbacks s1 s2 cbq2 ih =>
    rw [runLoop_step beh len i cbq s cid h hget]
    have hgen2 : s2.updateBatchNumber = s.updateBatchNumber := by
      show (performUpdateIfNecessary beh s1 cid).updateBatchNumber = _
      rw [perform_gen]
      rfl
    have h4s2 : ∀ j, tagOf s2 j = some s2.updateBatchNumber →
        ∃ k, i + 1 ≤ k ∧ k < len ∧ s2.dirtyComponents.get? k = some j := by
      intro j htag2
      rw [hgen2] at htag2
      exact step_h4 beh len i s cid hget h4 j htag2
    obtain ⟨iha, ihb⟩ := ih h4s2
    constructor
    · intro j htag
      by_cases hj : j = cid
      · subst hj
        have hrec : SchedEvent.reconcile j s1.updateBatchNumber ∈ s2.trace :=
          perform_reconcile_current beh s1 j (by rw [stash_tag]; exact htag)
        have hrec2 : SchedEvent.reconcile j s.updateBatchNumber ∈ s2.trace := hrec
        exact (runLoop_trace_pfx beh len (i + 1) cbq2 s2).subset hrec2
      · have htag2 : tagOf s2 j = some s.updateBatchNumber := by
          rcases perform_tag_cases beh s1 cid j with hc | ⟨hjc, _, _⟩ | ⟨hnone, _⟩
          · show tagOf (performUpdateIfNecessary beh s1 cid) j = _
            rw [hc, stash_tag]
            exact htag
          · exact absurd hjc hj
          · rw [stash_tag] at hnone
            rw [htag] at hnone
            cases hnone
        have := iha j (by rw [hgen2]; exact htag2)
        rw [hgen2] at this
        exact this
    · intro j
      have := ihb j
      rw [hgen2] at this
      exact this
  | case3 i cbq s h =>
    rw [runLoop_stop beh len i cbq s h]
    have hvac : ∀ j, tagOf s j ≠ some s.updateBatchNumber := by
      intro j htag
      obtain ⟨k, hik, hklen, _⟩ := h4 j htag
      omega
    exact ⟨fun j htag => absurd htag (hvac j), hvac⟩

/-- Components tagged for the next generation at loop exit either carried that
tag before the loop or sit in the appended (unprocessed) part of the queue. -/
theorem runLoop_newtag (beh : Behavior) (len i : Nat) (cbq : List (Nat × Nat))
    (s : SchedState) (j : CompId)
    (hfin : tagOf (runLoop beh len i cbq s).2 j = some (s.updateBatchNumber + 1)) :
    tagOf s j = some (s.updateBatchNumber + 1) ∨
      j ∈ (runLoop beh len i cbq s).2.dirtyComponents.drop
        s.dirtyComponents.length := by
  induction i, cbq, s using runLoop_induct beh len with
  | case1 i cbq s h hget =>
    rw [runLoop_none beh len i cbq s h hget] at hfin ⊢
    exact Or.inl hfin
  | case2 i cbq s h cid hget callbacks s1 s2 cbq2 ih =>
    rw [runLoop_step beh len i cbq s cid h hget] at hfin ⊢
    have hgen2 : s2.updateBatchNumber = s.updateBatchNumber := by
      show (performUpdateIfNecessary beh s1 cid).updateBatchNumber = _
      rw [perform_gen]
      rfl
    have hlen12 : s.dirtyComponents.length ≤ s2.dirtyComponents.length := by
      have hp := perform_dirty_prefix beh s1 cid
      have : s.dirtyComponents <+: s2.dirtyComponents := hp
      exact this.length_le
    rcases ih (by rw [hgen2]; exact hfin) with htag2 | hmem2
    · rw [hgen2] at htag2
      by_cases htag1 : tagOf s1 j = some (s.updateBatchNumber + 1)
      · rw [stash_tag] at htag1
        exact Or.inl htag1
      · refine Or.inr ?_
        have hmem : j ∈ s2.dirtyComponents.drop s1.dirtyComponents.length := by
          refine perform_newtag beh s1 cid j ?_ ?_
          · exact htag2
          · exact htag1
        have hmem' : j ∈ s2.dirtyComponents.drop s.dirtyComponents.length := hmem
        obtain ⟨ext, hext⟩ := runLoop_dirty_prefix beh len (i + 1) cbq2 s2
        rw [← hext]
        rw [List.drop_append_of_le_length hlen12] at *
        · exact List.mem_append_left _ hmem'
    · refine Or.inr ?_
      have hsub : (runLoop beh len (i + 1) cbq2 s2).2.dirtyComponents.drop
          s2.dirtyComponents.length ⊆
          (runLoop beh len (i + 1) cbq2 s2).2.dirtyComponents.drop
            s.dirtyComponents.length := by
        intro x hx
        have heq : (runLoop beh len (i + 1) cbq2 s2).2.dirtyComponents.drop
            s2.dirtyComponents.length =
            ((runLoop beh len (i + 1) cbq2 s2).2.dirtyComponents.drop
              s.dirtyComponents.length).drop
              (s2.dirtyComponents.length - s.dirtyComponents.length) := by
          rw [List.drop_drop]
          congr 1
          omega
        rw [heq] at hx
        exact List.drop_subset _ _ hx
      exact hsub hmem2
  | case3 i cbq s h =>
    rw [runLoop_stop beh len i cbq s h] at hfin ⊢
    exact Or.inl hfin

/-- Every component with a position in `[i, len)` has its pending callbacks
stashed into the transaction callback queue. -/
theorem runLoop_stash (beh : Behavior) (len i : Nat) (cbq : List (Nat × Nat))
    (s : SchedState) (j : CompId) (cbs : List Nat) (cb : Nat)
    (hpos : ∃ k, i ≤ k ∧ k < len ∧ s.dirtyComponents.get? k = some j)
    (hpc : (s.components j).pendingCallbacks = some cbs) (hcb : cb ∈ cbs) :
    (cb, j) ∈ (runLoop beh len i cbq s).1 := by
  induction i, cbq, s using runLoop_induct beh len with
  | case1 i cbq s h hget =>
    obtain ⟨k, hik, _, hk⟩ := hpos
    have hlen := List.get?_eq_none.mp hget
    have := get?_some_lt hk
    omega
  | case2 i cbq s h cid hget callbacks s1 s2 cbq2 ih =>
    rw [runLoop_step beh len i cbq s cid h hget]
    by_cases hj : j = cid
    · subst hj
      have hmem : (cb, j) ∈ cbq2 := by
        show (cb, j) ∈
          (match callbacks with
           | some cbs => cbq ++ cbs.map (fun cb => (cb, j))
           | none => cbq)
        have hcal : callbacks = some cbs := hpc
        rw [hcal]
        refine List.mem_append_right _ ?_
        exact List.mem_map.mpr ⟨cb, hcb, rfl⟩
      exact (runLoop_cbq_pfx beh len (i + 1) cbq2 s2).subset hmem
    · obtain ⟨k, hik, hklen, hk⟩ := hpos
      have hkne : k ≠ i := by
        intro hki
        subst hki
        rw [hk] at hget
        exact hj (Option.some.inj hget)
      refine ih ⟨k, by omega, hklen, ?_⟩ ?_
      · refine get?_of_prefix ?_ hk
        have hp := perform_dirty_prefix beh s1 cid
        exact hp
      · show ((performUpdateIfNecessary beh s1 cid).components j).pendingCallbacks =
          some cbs
        rw [perform_pcbs]
        show ((s.setComp cid
          { s.components cid with pendingCallbacks := none }).components j).pendingCallbacks = _
        simp only [SchedState.setComp, if_neg hj]
        exact hpc
  | case3 i cbq s h =>
    obtain ⟨k, hik, hklen, _⟩ := hpos
    omega

/-- A component reconciled during the loop has null pending callbacks at loop
exit (they were stashed at its dispatch). -/
theorem runLoop_reconciled_pcnone (beh : Behavior) (len i : Nat)
    (cbq : List (Nat × Nat)) (s : SchedState) (j : CompId) (g : Nat)
    (hmem : SchedEvent.reconcile j g ∈ (runLoop beh len i cbq s).2.trace)
    (hnew : SchedEvent.reconcile j g ∉ s.trace) :
    ((runLoop beh len i cbq s).2.components j).pendingCallbacks = none := by
  induction i, cbq, s using runLoop_induct beh len with
  | case1 i cbq s h hget =>
    rw [runLoop_none beh len i cbq s h hget] at hmem
    exact absurd hmem hnew
  | case2 i cbq s h cid hget callbacks s1 s2 cbq2 ih =>
    rw [runLoop_step beh len i cbq s cid h hget] at hmem ⊢
    by_cases hmem2 : SchedEvent.reconcile j g ∈ s2.trace
    · have hnew2 : SchedEvent.reconcile j g ∉ s1.trace := hnew
      rcases perform_new_reconcile beh s1 cid j g hmem2 with hold | ⟨hjc, _, _⟩
      · exact absurd hold hnew2
      · subst hjc
        have hpc2 : (s2.components j).pendingCallbacks = none := by
          show ((performUpdateIfNecessary beh s1 j).components j).pendingCallbacks =
            none
          rw [perform_pcbs]
          show ((s.setComp j
            { s.components j with pendingCallbacks := none }).components j).pendingCallbacks = _
          simp [SchedState.setComp]
        rcases runLoop_pcbs beh len (i + 1) cbq2 s2 j with hp | hp
        · rw [hp]
          exact hpc2
        · exact hp
    · exact ih hmem hmem2
  | case3 i cbq s h =>
    rw [runLoop_stop beh len i cbq s h] at hmem
    exact absurd hmem hnew

/-- Cascade within a pass: a component reconciled during the loop has each
component its behaviour scheduled either already reconciled within the same
loop or left tagged for the next generation. -/
theorem runLoop_cascade (beh : Behavior) (len i : Nat) (cbq : List (Nat × Nat))
    (s : SchedState)
    (h3 : ∀ j, tagOf s j = none ∨ tagOf s j = some s.updateBatchNumber ∨
      tagOf s j = some (s.updateBatchNumber + 1))
    (h4 : ∀ j, tagOf s j = some s.updateBatchNumber →
      ∃ k, i ≤ k ∧ k < len ∧ s.dirtyComponents.get? k = some j)
    (A : CompId) (g : Nat) (B : CompId)
    (hmem : SchedEvent.reconcile A g ∈ (runLoop beh len i cbq s).2.trace)
    (hnew : SchedEvent.reconcile A g ∉ s.trace) (hB : B ∈ beh A) :
    (∃ g', SchedEvent.reconcile B g' ∈ (runLoop beh len i cbq s).2.trace) ∨
      tagOf (runLoop beh len i cbq s).2 B = some (s.updateBatchNumber + 1) := by
  induction i, cbq, s using runLoop_induct beh len with
  | case1 i cbq s h hget =>
    rw [runLoop_none beh len i cbq s h hget] at hmem
    exact absurd hmem hnew
  | case2 i cbq s h cid hget callbacks s1 s2 cbq2 ih =>
    rw [runLoop_step beh len i cbq s cid h hget] at hmem ⊢
    have hgen1 : s1.updateBatchNumber = s.updateBatchNumber := rfl
    have hgen2 : s2.updateBatchNumber = s.updateBatchNumber := by
      show (performUpdateIfNecessary beh s1 cid).updateBatchNumber = _
      rw [perform_gen]
      rfl
    have h3s2 : ∀ j, tagOf s2 j = none ∨
        tagOf s2 j = some s2.updateBatchNumber ∨
        tagOf s2 j = some (s2.updateBatchNumber + 1) := by
      intro j
      rw [hgen2]
      exact step_h3 beh s cid h3 j
    have h4s2 : ∀ j, tagOf s2 j = some s2.updateBatchNumber →
        ∃ k, i + 1 ≤ k ∧ k < len ∧ s2.dirtyComponents.get? k = some j := by
      intro j htag2
      rw [hgen2] at htag2
      exact step_h4 beh len i s cid hget h4 j htag2
    by_cases hmem2 : SchedEvent.reconcile A g ∈ s2.trace
    · have hnew2 : SchedEvent.reconcile A g ∉ s1.trace := hnew
      rcases perform_new_reconcile beh s1 cid A g hmem2 with hold | ⟨hAc, _, htagA⟩
      · exact absurd hold hnew2
      · subst hAc
        have htagB : tagOf s2 B ≠ none := perform_behavior_tag beh s1 A htagA B hB
        rcases h3s2 B with hb | hb | hb
        · exact absurd hb htagB
        · obtain ⟨iha, _⟩ := runLoop_pending_reconciled beh len (i + 1) cbq2 s2 h4s2
          refine Or.inl ⟨s2.updateBatchNumber, iha B hb⟩
        · refine Or.inr ?_
          have := runLoop_tagG1_persists beh len (i + 1) cbq2 s2 B hb
          rw [hgen2] at this
          exact this
    · rcases ih h3s2 h4s2 hmem hmem2 with hres | hres
      · exact Or.inl hres
      · rw [hgen2] at hres
        exact Or.inr hres
  | case3 i cbq s h =>
    rw [runLoop_stop beh len i cbq s h] at hmem
    exact absurd hmem hnew

/-- A component at no position of the processed window keeps its pending
callbacks through the loop. -/
theorem runLoop_pcbs_untouched (beh : Behavior) (len i : Nat)
    (cbq : List (Nat × Nat)) (s : SchedState) (j : CompId)
    (hlen : len ≤ s.dirtyComponents.length)
    (hnot : ∀ k, k < len → s.dirtyComponents.get? k ≠ some j) :
    ((runLoop beh len i cbq s).2.components j).pendingCallbacks =
      (s.components j).pendingCallbacks := by
  induction i, cbq, s using runLoop_induct beh len with
  | case1 i cbq s h hget => rw [runLoop_none beh len i cbq s h hget]
  | case2 i cbq s h cid hget callbacks s1 s2 cbq2 ih =>
    rw [runLoop_step beh len i cbq s cid h hget]
    have hcid : cid ≠ j := by
      intro hc
      exact hnot i h (hc ▸ hget)
    have hpc2 : (s2.components j).pendingCallbacks =
        (s.components j).pendingCallbacks := by
      show ((performUpdateIfNecessary beh s1 cid).components j).pendingCallbacks = _
      rw [perform_pcbs]
      show ((s.setComp cid
        { s.components cid with pendingCallbacks := none }).components j).pendingCallbacks = _
      simp only [SchedState.setComp]
      rw [if_neg (fun hc => hcid hc.symm)]
    have hpre : s.dirtyComponents <+: s2.dirtyComponents := by
      have hp := perform_dirty_prefix beh s1 cid
      exact hp
    have hlen2 : len ≤ s2.dirtyComponents.length := le_trans hlen hpre.length_le
    have hnot2 : ∀ k, k < len → s2.dirtyComponents.get? k ≠ some j := by
      intro k hk hcontra
      have hklen : k < s.dirtyComponents.length := lt_of_lt_of_le hk hlen
      obtain ⟨x, hx⟩ : ∃ x, s.dirtyComponents.get? k = some x :=
        ⟨_, List.get?_eq_get hklen⟩
      have hx2 := get?_of_prefix hpre hx
      rw [hcontra] at hx2
      have hxj : x = j := Option.some.inj hx2.symm
      rw [hxj] at hx
      exact hnot k hk hx
    rw [ih hlen2 hnot2, hpc2]
  | case3 i cbq s h => rw [runLoop_stop beh len i cbq s h]

/-! ### Pass-level lemmas -/

/-- Between drain passes every component is either untagged, or tagged for the
next generation and present in the dirty queue. -/
def TagDirtyInv (s : SchedState) : Prop :=
  ∀ cid, tagOf s cid = none ∨
    (tagOf s cid = some (s.updateBatchNumber + 1) ∧ cid ∈ s.dirtyComponents)

/-- The state `runBatchedUpdates` hands to its dispatch loop: dirty queue
sorted by ascending mount order and the batch counter incremented. -/
def sortState (s : SchedState) : SchedState :=
  { s with
    dirtyComponents :=
      List.insertionSort
        (fun a b => (s.components a).mountOrder ≤ (s.components b).mountOrder)
        s.dirtyComponents
    updateBatchNumber := s.updateBatchNumber + 1 }

theorem runBatchedUpdates_eq (beh : Behavior) (s : SchedState) :
    runBatchedUpdates beh s.dirtyComponents.length s =
      some (runLoop beh s.dirtyComponents.length 0 [] (sortState s)) := by
  unfold runBatchedUpdates sortState
  rw [if_pos rfl]

theorem sortState_perm (s : SchedState) :
    (sortState s).dirtyComponents.Perm s.dirtyComponents :=
  List.perm_insertionSort _ _

theorem sortState_length (s : SchedState) :
    (sortState s).dirtyComponents.length = s.dirtyComponents.length :=
  (sortState_perm s).length_eq

theorem sortState_inv (s : SchedState) (h : SchedInv s) : SchedInv (sortState s) := by
  obtain ⟨h1, h2, h3⟩ := h
  refine ⟨h1, ?_, h3⟩
  intro k hk
  have := h2 k hk
  show k.2 ≤ s.updateBatchNumber + 1
  omega

/-- Everything one successful `runBatchedUpdates` pass guarantees, starting
from a state satisfying the between-pass tag invariant. -/
theorem pass_facts (beh : Behavior) (s : SchedState) (cbq1 : List (Nat × Nat))
    (s1 : SchedState) (hTD : TagDirtyInv s)
    (hrun : runBatchedUpdates beh s.dirtyComponents.length s = some (cbq1, s1)) :
    s1.updateBatchNumber = s.updateBatchNumber + 1 ∧
    s.trace <+: s1.trace ∧
    (∀ j, tagOf s1 j = none ∨
      (tagOf s1 j = some (s.updateBatchNumber + 1 + 1) ∧
        j ∈ s1.dirtyComponents.drop s.dirtyComponents.length)) ∧
    (∀ j, tagOf s j = some (s.updateBatchNumber + 1) →
      SchedEvent.reconcile j (s.updateBatchNumber + 1) ∈ s1.trace) ∧
    (∀ A g B, SchedEvent.reconcile A g ∈ s1.trace →
      SchedEvent.reconcile A g ∉ s.trace → B ∈ beh A →
      (∃ g', SchedEvent.reconcile B g' ∈ s1.trace) ∨
        (tagOf s1 B = some (s.updateBatchNumber + 1 + 1) ∧
          B ∈ s1.dirtyComponents.drop s.dirtyComponents.length)) ∧
    (∀ j cbs cb, (s.components j).pendingCallbacks = some cbs → cb ∈ cbs →
      j ∈ s.dirtyComponents → (cb, j) ∈ cbq1) ∧
    (∀ j, (s1.components j).pendingCallbacks = (s.components j).pendingCallbacks ∨
      (s1.components j).pendingCallbacks = none) ∧
    (∀ j g, SchedEvent.reconcile j g ∈ s1.trace →
      SchedEvent.reconcile j g ∉ s.trace →
      (s1.components j).pendingCallbacks = none) ∧
    s.dirtyComponents.length ≤ s1.dirtyComponents.length ∧
    (SchedInv s → SchedInv s1) := by
  have heq0 := runBatchedUpdates_eq beh s
  rw [hrun] at heq0
  have hpair := Option.some.inj heq0
  have heq : runLoop beh s.dirtyComponents.length 0 [] (sortState s) =
      (cbq1, s1) := hpair.symm
  have hG : (sortState s).updateBatchNumber = s.updateBatchNumber + 1 := rfl
  have hTr : (sortState s).trace = s.trace := rfl
  have hCo : (sortState s).components = s.components := rfl
  have hTag : ∀ j, tagOf (sortState s) j = tagOf s j := fun j => rfl
  have h3sort : ∀ j, tagOf (sortState s) j = none ∨
      tagOf (sortState s) j = some (sortState s).updateBatchNumber ∨
      tagOf (sortState s) j = some ((sortState s).updateBatchNumber + 1) := by
    intro j
    rcases hTD j with hj | ⟨hj, _⟩
    · exact Or.inl (by rw [hTag]; exact hj)
    · exact Or.inr (Or.inl (by rw [hTag, hG]; exact hj))
  have h4sort : ∀ j, tagOf (sortState s) j = some (sortState s).updateBatchNumber →
      ∃ k, 0 ≤ k ∧ k < s.dirtyComponents.length ∧
        (sortState s).dirtyComponents.get? k = some j := by
    intro j hj
    rw [hTag, hG] at hj
    rcases hTD j with hn | ⟨_, hmem⟩
    · rw [hn] at hj; cases hj
    · have hmem2 : j ∈ (sortState s).dirtyComponents :=
        ((sortState_perm s).mem_iff).mpr hmem
      obtain ⟨k, hk⟩ := List.mem_iff_get?.mp hmem2
      refine ⟨k, Nat.zero_le _, ?_, hk⟩
      have := get?_some_lt hk
      rw [sortState_length] at this
      exact this
  set L := s.dirtyComponents.length with hL
  obtain ⟨hpend, hnoG⟩ :=
    runLoop_pending_reconciled beh L 0 [] (sortState s) h4sort
  rw [heq] at hpend hnoG
  have hgen1 : s1.updateBatchNumber = s.updateBatchNumber + 1 := by
    have := runLoop_gen beh L 0 [] (sortState s)
    rw [heq] at this
    exact this
  have htrpre : s.trace <+: s1.trace := by
    have := runLoop_trace_pfx beh L 0 [] (sortState s)
    rw [heq, hTr] at this
    exact this
  have hdirtypre : (sortState s).dirtyComponents <+: s1.dirtyComponents := by
    have := runLoop_dirty_prefix beh L 0 [] (sortState s)
    rw [heq] at this
    exact this
  have hdich : ∀ j, tagOf s1 j = none ∨
      (tagOf s1 j = some (s.updateBatchNumber + 1 + 1) ∧
        j ∈ s1.dirtyComponents.drop L) := by
    intro j
    have h3s1 := runLoop_tags3 beh L 0 [] (sortState s) h3sort j
    rw [heq] at h3s1
    rcases h3s1 with hj | hj | hj
    · exact Or.inl hj
    · rw [hG] at hj
      exact absurd (by rw [hj, hG] : tagOf (cbq1, s1).2 j =
        some (sortState s).updateBatchNumber) (hnoG j)
    · refine Or.inr ⟨by rw [hG] at hj; exact hj, ?_⟩
      have hnt := runLoop_newtag beh L 0 [] (sortState s) j (by rw [heq]; exact hj)
      rw [heq] at hnt
      rcases hnt with hold | hmem
      · rw [hTag, hG] at hold
        rcases hTD j with hn | ⟨hn, _⟩
        · rw [hn] at hold; cases hold
        · rw [hn] at hold
          have := Option.some.inj hold
          omega
      · rw [sortState_length] at hmem
        exact hmem
  refine ⟨hgen1, htrpre, hdich, ?_, ?_, ?_, ?_, ?_, ?_, ?_⟩
  · intro j hj
    have := hpend j (by rw [hTag, hG]; exact hj)
    rw [hG] at this
    exact this
  · intro A g B hmem hnew hB
    have hc := runLoop_cascade beh L 0 [] (sortState s) h3sort h4sort A g B
      (by rw [heq]; exact hmem) (by rw [hTr]; exact hnew) hB
    rw [heq] at hc
    rcases hc with hc | hc
    · exact Or.inl hc
    · rw [hG] at hc
      rcases hdich B with hn | hd
      · rw [hn] at hc; cases hc
      · exact Or.inr hd
  · intro j cbs cb hpc hcb hmem
    have hmem2 : j ∈ (sortState s).dirtyComponents :=
      ((sortState_perm s).mem_iff).mpr hmem
    obtain ⟨k, hk⟩ := List.mem_iff_get?.mp hmem2
    have hklen : k < L := by
      have := get?_some_lt hk
      rw [sortState_length] at this
      exact this
    have := runLoop_stash beh L 0 [] (sortState s) j cbs cb
      ⟨k, Nat.zero_le _, hklen, hk⟩ (by rw [hCo]; exact hpc) hcb
    rw [heq] at this
    exact this
  · intro j
    have := runLoop_pcbs beh L 0 [] (sortState s) j
    rw [heq, hCo] at this
    exact this
  · intro j g hmem hnew
    have := runLoop_reconciled_pcnone beh L 0 [] (sortState s) j g
      (by rw [heq]; exact hmem) (by rw [hTr]; exact hnew)
    rw [heq] at this
    exact this
  · have := hdirtypre.length_le
    rw [sortState_length] at this
    exact this
  · intro hinv
    have := runLoop_inv beh L 0 [] (sortState s) (sortState_inv s hinv)
    rw [heq] at this
    exact this

/-- Components not in the dirty queue keep their pending callbacks through a
pass. -/
theorem pass_untouched (beh : Behavior) (s : SchedState) (cbq1 : List (Nat × Nat))
    (s1 : SchedState)
    (hrun : runBatchedUpdates beh s.dirtyComponents.length s = some (cbq1, s1))
    (j : CompId) (hnot : j ∉ s.dirtyComponents) :
    (s1.components j).pendingCallbacks = (s.components j).pendingCallbacks := by
  have heq0 := runBatchedUpdates_eq beh s
  rw [hrun] at heq0
  have heq : runLoop beh s.dirtyComponents.length 0 [] (sortState s) =
      (cbq1, s1) := (Option.some.inj heq0).symm
  have hlen : s.dirtyComponents.length ≤ (sortState s).dirtyComponents.length := by
    rw [sortState_length]
  have hnot2 : ∀ k, k < s.dirtyComponents.length →
      (sortState s).dirtyComponents.get? k ≠ some j := by
    intro k _ hk
    have : j ∈ (sortState s).dirtyComponents :=
      List.mem_iff_get?.mpr ⟨k, hk⟩
    exact hnot (((sortState_perm s).mem_iff).mp this)
  have := runLoop_pcbs_untouched beh s.dirtyComponents.length 0 [] (sortState s)
    j hlen hnot2
  rw [heq] at this
  exact this

/-! ### notifyList lemmas -/

theorem notifyList_components (q : List (Nat × Nat)) (s : SchedState) :
    (notifyList q s).components = s.components := rfl

theorem notifyList_gen (q : List (Nat × Nat)) (s : SchedState) :
    (notifyList q s).updateBatchNumber = s.updateBatchNumber := rfl

theorem notifyList_dirty (q : List (Nat × Nat)) (s : SchedState) :
    (notifyList q s).dirtyComponents = s.dirtyComponents := rfl

theorem notifyList_trace_prefix (q : List (Nat × Nat)) (s : SchedState) :
    s.trace <+: (notifyList q s).trace :=
  List.prefix_append _ _

theorem reconcile_not_mem_notify (q : List (Nat × Nat)) (j : CompId) (g : Nat) :
    SchedEvent.reconcile j g ∉ q.map (fun p => SchedEvent.notify p.1 p.2) := by
  intro hmem
  obtain ⟨p, _, hp⟩ := List.mem_map.mp hmem
  cases hp

theorem notifyList_reconcile_mem (q : List (Nat × Nat)) (s : SchedState)
    (j : CompId) (g : Nat) :
    SchedEvent.reconcile j g ∈ (notifyList q s).trace ↔
      SchedEvent.reconcile j g ∈ s.trace := by
  show SchedEvent.reconcile j g ∈ s.trace ++ _ ↔ _
  rw [List.mem_append]
  constructor
  · rintro (h | h)
    · exact h
    · exact absurd h (reconcile_not_mem_notify q j g)
  · exact Or.inl

theorem notifyList_notify_mem (q : List (Nat × Nat)) (s : SchedState)
    (cb : Nat) (j : Nat) (hmem : (cb, j) ∈ q) :
    SchedEvent.notify cb j ∈ (notifyList q s).trace := by
  show SchedEvent.notify cb j ∈ s.trace ++ _
  refine List.mem_append_right _ ?_
  exact List.mem_map.mpr ⟨(cb, j), hmem, rfl⟩

theorem notifyList_TD (q : List (Nat × Nat)) (s : SchedState)
    (h : TagDirtyInv s) : TagDirtyInv (notifyList q s) := h

theorem notifyList_inv (q : List (Nat × Nat)) (s : SchedState)
    (h : SchedInv s) : SchedInv (notifyList q s) := by
  obtain ⟨h1, h2, h3⟩ := h
  have hkeys : reconcileKeys (notifyList q s).trace = reconcileKeys s.trace := by
    show reconcileKeys (s.trace ++ _) = _
    rw [reconcileKeys_append, reconcileKeys_notify, List.append_nil]
  exact ⟨by rw [hkeys]; exact h1, by rw [hkeys]; exact h2,
    fun cid g htag => by rw [hkeys]; exact h3 cid g htag⟩

/-- The asap-queue handling at the end of one drain-loop iteration. -/
def asapStep (t : SchedState) : SchedState :=
  if t.asapEnqueued = true then
    notifyList t.asapCallbackQueue
      { t with asapEnqueued := false, asapCallbackQueue := [] }
  else t

theorem asapStep_trace_pfx (t : SchedState) : t.trace <+: (asapStep t).trace := by
  unfold asapStep
  split
  · exact List.prefix_append _ _
  · exact List.prefix_refl _

theorem asapStep_components (t : SchedState) :
    (asapStep t).components = t.components := by
  unfold asapStep
  split <;> rfl

theorem asapStep_dirty (t : SchedState) :
    (asapStep t).dirtyComponents = t.dirtyComponents := by
  unfold asapStep
  split <;> rfl

theorem asapStep_gen (t : SchedState) :
    (asapStep t).updateBatchNumber = t.updateBatchNumber := by
  unfold asapStep
  split <;> rfl

theorem asapStep_reconcile_mem (t : SchedState) (j : CompId) (g : Nat) :
    SchedEvent.reconcile j g ∈ (asapStep t).trace ↔
      SchedEvent.reconcile j g ∈ t.trace := by
  unfold asapStep
  split
  · exact notifyList_reconcile_mem _ _ j g
  · exact Iff.rfl

theorem asapStep_TD (t : SchedState) (h : TagDirtyInv t) :
    TagDirtyInv (asapStep t) := by
  unfold asapStep
  split
  · exact h
  · exact h

theorem asapStep_inv (t : SchedState) (h : SchedInv t) : SchedInv (asapStep t) := by
  unfold asapStep
  split
  · exact notifyList_inv _ _ h
  · exact h

set_option maxHeartbeats 1000000 in
theorem flush_facts (beh : Behavior) : ∀ (fuel : Nat) (s s' : SchedState),
    TagDirtyInv s → flushBatchedUpdates beh fuel s = some s' →
    s.trace <+: s'.trace ∧
    s'.dirtyComponents = [] ∧
    s'.asapEnqueued = false ∧
    TagDirtyInv s' ∧
    (∀ j, (s.components j).pendingCallbacks = none →
      (s'.components j).pendingCallbacks = none) ∧
    (∀ cid, tagOf s cid = some (s.updateBatchNumber + 1) →
      ∃ g', SchedEvent.reconcile cid g' ∈ s'.trace) ∧
    (∀ A g B, SchedEvent.reconcile A g ∈ s'.trace →
      SchedEvent.reconcile A g ∉ s.trace → B ∈ beh A →
      ∃ g', SchedEvent.reconcile B g' ∈ s'.trace) ∧
    (∀ j cbs, (s.components j).pendingCallbacks = some cbs →
      (s'.components j).pendingCallbacks = some cbs ∨
        ∀ cb ∈ cbs, SchedEvent.notify cb j ∈ s'.trace) ∧
    (∀ j g, SchedEvent.reconcile j g ∈ s'.trace →
      SchedEvent.reconcile j g ∉ s.trace →
      (s'.components j).pendingCallbacks = none) ∧
    (SchedInv s → SchedInv s') := by
  intro fuel
  induction fuel with
  | zero =>
    intro s s' _ hrun
    exact Option.noConfusion hrun
  | succ fuel ih =>
    intro s s' hTD hrun
    rw [show flushBatchedUpdates beh (fuel + 1) s =
      (if s.dirtyComponents.length ≠ 0 ∨ s.asapEnqueued = true then
        match
          (if s.dirtyComponents.length ≠ 0 then
            match runBatchedUpdates beh s.dirtyComponents.length s with
            | none => none
            | some (cbq, s1) =>
              match
                (if s.dirtyComponents.length ≠ s1.dirtyComponents.length then
                  flushBatchedUpdates beh fuel
                    { s1 with
                      dirtyComponents :=
                        s1.dirtyComponents.drop s.dirtyComponents.length }
                else some { s1 with dirtyComponents := [] }) with
              | none => none
              | some s2 => some (notifyList cbq s2)
          else some s) with
        | none => none
        | some s3 => flushBatchedUpdates beh fuel (asapStep s3)
      else some s) from rfl] at hrun
    by_cases hcond : s.dirtyComponents.length ≠ 0 ∨ s.asapEnqueued = true
    case neg =>
      rw [if_neg hcond] at hrun
      have hss : s = s' := Option.some.inj hrun
      subst hss
      push_neg at hcond
      obtain ⟨hd0, hasap⟩ := hcond
      have hdirty : s.dirtyComponents = [] := List.length_eq_zero.mp hd0
      refine ⟨List.prefix_refl _, hdirty, Bool.not_eq_true _ |>.mp hasap, hTD,
        fun j h => h, ?_, ?_, fun j cbs h => Or.inl h, ?_, fun h => h⟩
      · intro cid htag
        rcases hTD cid with hn | ⟨_, hmem⟩
        · rw [hn] at htag; cases htag
        · rw [hdirty] at hmem
          cases hmem
      · intro A g B hm hnm _
        exact absurd hm hnm
      · intro j g hm hnm
        exact absurd hm hnm
    case pos =>
      rw [if_pos hcond] at hrun
      by_cases hd : s.dirtyComponents.length ≠ 0
      · rw [if_pos hd] at hrun
        rcases hrb : runBatchedUpdates beh s.dirtyComponents.length s with _ | p
        · rw [hrb] at hrun
          exact Option.noConfusion hrun
        · obtain ⟨cbq1, s1⟩ := p
          rw [hrb] at hrun
          replace hrun :
              (match
                (match
                  (if s.dirtyComponents.length ≠ s1.dirtyComponents.length then
                    flushBatchedUpdates beh fuel
                      { s1 with dirtyComponents :=
                          s1.dirtyComponents.drop s.dirtyComponents.length }
                  else some { s1 with dirtyComponents := [] }) with
                | none => none
                | some s2 => some (notifyList cbq1 s2)) with
              | none => none
              | some s3 => flushBatchedUpdates beh fuel (asapStep s3)) = some s' := hrun
          obtain ⟨PF1, PF2, PF3, PF4, PF5, PF6, PF7, PF8, PF9, PF10⟩ :=
            pass_facts beh s cbq1 s1 hTD hrb
          by_cases hgrow : s.dirtyComponents.length ≠ s1.dirtyComponents.length
          · rw [if_pos hgrow] at hrun
            rcases hfl : flushBatchedUpdates beh fuel
                { s1 with dirtyComponents :=
                    s1.dirtyComponents.drop s.dirtyComponents.length } with _ | s2
            · rw [hfl] at hrun
              exact Option.noConfusion hrun
            · rw [hfl] at hrun
              replace hrun : flushBatchedUpdates beh fuel
                  (asapStep (notifyList cbq1 s2)) = some s' := hrun
              have hTD3 : TagDirtyInv
                  { s1 with dirtyComponents :=
                      s1.dirtyComponents.drop s.dirtyComponents.length } := by
                intro j
                rcases PF3 j with hn | ⟨ht, hm⟩
                · exact Or.inl hn
                · refine Or.inr ⟨?_, hm⟩
                  show tagOf s1 j = some (s1.updateBatchNumber + 1)
                  rw [ht, PF1]
              obtain ⟨IH1a, IH1b, IH1c, IH1d, IH1e, IH1f, IH1g, IH1h, IH1i, IH1j⟩ :=
                ih _ s2 hTD3 hfl
              have hTD4 : TagDirtyInv (asapStep (notifyList cbq1 s2)) :=
                asapStep_TD _ (notifyList_TD _ _ IH1d)
              obtain ⟨IH2a, IH2b, IH2c, IH2d, IH2e, IH2f, IH2g, IH2h, IH2i, IH2j⟩ :=
                ih _ s' hTD4 hrun
              have hpre12 : s1.trace <+: s2.trace := IH1a
              have hpre24 : s2.trace <+: (notifyList cbq1 s2).trace :=
                notifyList_trace_prefix _ _
              have hpre45 : (notifyList cbq1 s2).trace <+:
                  (asapStep (notifyList cbq1 s2)).trace := asapStep_trace_pfx _
              have hpre5f : (asapStep (notifyList cbq1 s2)).trace <+: s'.trace := IH2a
              have hpre2f : s2.trace <+: s'.trace :=
                hpre24.trans (hpre45.trans hpre5f)
              have hpre1f : s1.trace <+: s'.trace := hpre12.trans hpre2f
              refine ⟨PF2.trans hpre1f, IH2b, IH2c, IH2d, ?_, ?_, ?_, ?_, ?_, ?_⟩
              · intro j hnone
                have h1 : (s1.components j).pendingCallbacks = none := by
                  rcases PF7 j with h | h
                  · rw [h]; exact hnone
                  · exact h
                have h2 : (s2.components j).pendingCallbacks = none := IH1e j h1
                exact IH2e j (by rw [asapStep_components]; exact h2)
              · intro cid htag
                exact ⟨_, hpre1f.subset (PF4 cid htag)⟩
              · intro A g B hmem hnmem hB
                by_cases e1 : SchedEvent.reconcile A g ∈ s1.trace
                · rcases PF5 A g B e1 hnmem hB with ⟨g2, hg2⟩ | ⟨ht, hm⟩
                  · exact ⟨g2, hpre1f.subset hg2⟩
                  · have ht2 : tagOf s1 B = some (s1.updateBatchNumber + 1) := by
                      rw [ht, PF1]
                    obtain ⟨g2, hg2⟩ := IH1f B ht2
                    exact ⟨g2, hpre2f.subset hg2⟩
                · by_cases e2 : SchedEvent.reconcile A g ∈ s2.trace
                  · obtain ⟨g2, hg2⟩ := IH1g A g B e2 e1 hB
                    exact ⟨g2, hpre2f.subset hg2⟩
                  · have e5 : SchedEvent.reconcile A g ∉
                        (asapStep (notifyList cbq1 s2)).trace := by
                      rw [asapStep_reconcile_mem, notifyList_reconcile_mem]
                      exact e2
                    exact IH2g A g B hmem e5 hB
              · intro j cbs hpc
                by_cases hjd : j ∈ s.dirtyComponents
                · refine Or.inr ?_
                  intro cb hcb
                  have hc1 : (cb, j) ∈ cbq1 := PF6 j cbs cb hpc hcb hjd
                  have hn4 : SchedEvent.notify cb j ∈ (notifyList cbq1 s2).trace :=
                    notifyList_notify_mem _ _ cb j hc1
                  exact (hpre45.trans hpre5f).subset hn4
                · have h1 : (s1.components j).pendingCallbacks = some cbs := by
                    rw [pass_untouched beh s cbq1 s1 hrb j hjd]
                    exact hpc
                  rcases IH1h j cbs h1 with h2 | h2
                  · have h4 : ((asapStep (notifyList cbq1 s2)).components j).pendingCallbacks =
                        some cbs := by
                      rw [asapStep_components]
                      exact h2
                    rcases IH2h j cbs h4 with h5 | h5
                    · exact Or.inl h5
                    · exact Or.inr h5
                  · refine Or.inr ?_
                    intro cb hcb
                    exact hpre2f.subset (h2 cb hcb)
              · intro j g hmem hnmem
                by_cases e1 : SchedEvent.reconcile j g ∈ s1.trace
                · have h1 := PF8 j g e1 hnmem
                  have h2 : (s2.components j).pendingCallbacks = none := IH1e j h1
                  exact IH2e j (by rw [asapStep_components]; exact h2)
                · by_cases e2 : SchedEvent.reconcile j g ∈ s2.trace
                  · have h2 := IH1i j g e2 e1
                    exact IH2e j (by rw [asapStep_components]; exact h2)
                  · have e5 : SchedEvent.reconcile j g ∉
                        (asapStep (notifyList cbq1 s2)).trace := by
                      rw [asapStep_reconcile_mem, notifyList_reconcile_mem]
                      exact e2
                    exact IH2i j g hmem e5
              · intro hinv
                exact IH2j (asapStep_inv _ (notifyList_inv _ _ (IH1j (PF10 hinv))))
          · rw [if_neg hgrow] at hrun
            replace hrun : flushBatchedUpdates beh fuel
                (asapStep (notifyList cbq1 { s1 with dirtyComponents := [] })) =
                some s' := hrun
            push_neg at hgrow
            have hdropnil : s1.dirtyComponents.drop s.dirtyComponents.length = [] :=
              List.drop_eq_nil_of_le (le_of_eq hgrow.symm)
            have hTD2 : TagDirtyInv { s1 with dirtyComponents := [] } := by
              intro j
              rcases PF3 j with hn | ⟨_, hm⟩
              · exact Or.inl hn
              · rw [hdropnil] at hm
                cases hm
            have hTD4 : TagDirtyInv
                (asapStep (notifyList cbq1 { s1 with dirtyComponents := [] })) :=
              asapStep_TD _ (notifyList_TD _ _ hTD2)
            obtain ⟨IH2a, IH2b, IH2c, IH2d, IH2e, IH2f, IH2g, IH2h, IH2i, IH2j⟩ :=
              ih _ s' hTD4 hrun
            have hpre14 : s1.trace <+:
                (notifyList cbq1 { s1 with dirtyComponents := [] }).trace :=
              notifyList_trace_prefix _ _
            have hpre45 : (notifyList cbq1 { s1 with dirtyComponents := [] }).trace <+:
                (asapStep (notifyList cbq1 { s1 with dirtyComponents := [] })).trace :=
              asapStep_trace_pfx _
            have hpre5f : (asapStep (notifyList cbq1
                { s1 with dirtyComponents := [] })).trace <+: s'.trace := IH2a
            have hpre1f : s1.trace <+: s'.trace :=
              hpre14.trans (hpre45.trans hpre5f)
            refine ⟨PF2.trans hpre1f, IH2b, IH2c, IH2d, ?_, ?_, ?_, ?_, ?_, ?_⟩
            · intro j hnone
              have h1 : (s1.components j).pendingCallbacks = none := by
                rcases PF7 j with h | h
                · rw [h]; exact hnone
                · exact h
              exact IH2e j (by rw [asapStep_components]; exact h1)
            · intro cid htag
              exact ⟨_, hpre1f.subset (PF4 cid htag)⟩
            · intro A g B hmem hnmem hB
              by_cases e1 : SchedEvent.reconcile A g ∈ s1.trace
              · rcases PF5 A g B e1 hnmem hB with ⟨g2, hg2⟩ | ⟨_, hm⟩
                · exact ⟨g2, hpre1f.subset hg2⟩
                · rw [hdropnil] at hm
                  cases hm
              · have e5 : SchedEvent.reconcile A g ∉
                    (asapStep (notifyList cbq1
                      { s1 with dirtyComponents := [] })).trace := by
                  rw [asapStep_reconcile_mem, notifyList_reconcile_mem]
                  exact e1
                exact IH2g A g B hmem e5 hB
            · intro j cbs hpc
              by_cases hjd : j ∈ s.dirtyComponents
              · refine Or.inr ?_
                intro cb hcb
                have hc1 : (cb, j) ∈ cbq1 := PF6 j cbs cb hpc hcb hjd
                have hn4 : SchedEvent.notify cb j ∈
                    (notifyList cbq1 { s1 with dirtyComponents := [] }).trace :=
                  notifyList_notify_mem _ _ cb j hc1
                exact (hpre45.trans hpre5f).subset hn4
              · have h1 : (s1.components j).pendingCallbacks = some cbs := by
                  rw [pass_untouched beh s cbq1 s1 hrb j hjd]
                  exact hpc
                rcases IH2h j cbs (by rw [asapStep_components]; exact h1) with h5 | h5
                · exact Or.inl h5
                · exact Or.inr h5
            · intro j g hmem hnmem
              by_cases e1 : SchedEvent.reconcile j g ∈ s1.trace
              · have h1 := PF8 j g e1 hnmem
                exact IH2e j (by rw [asapStep_components]; exact h1)
              · have e5 : SchedEvent.reconcile j g ∉
                    (asapStep (notifyList cbq1
                      { s1 with dirtyComponents := [] })).trace := by
                  rw [asapStep_reconcile_mem, notifyList_reconcile_mem]
                  exact e1
                exact IH2i j g hmem e5
            · intro hinv
              exact IH2j (asapStep_inv _ (notifyList_inv _ _ (PF10 hinv)))
      · rw [if_neg hd] at hrun
        replace hrun : flushBatchedUpdates beh fuel (asapStep s) = some s' := hrun
        have hTD4 : TagDirtyInv (asapStep s) := asapStep_TD _ hTD
        obtain ⟨IH2a, IH2b, IH2c, IH2d, IH2e, IH2f, IH2g, IH2h, IH2i, IH2j⟩ :=
          ih _ s' hTD4 hrun
        push_neg at hd
        have hdirty : s.dirtyComponents = [] := List.length_eq_zero.mp hd
        refine ⟨(asapStep_trace_pfx s).trans IH2a, IH2b, IH2c, IH2d, ?_, ?_,
          ?_, ?_, ?_, ?_⟩
        · intro j hnone
          exact IH2e j (by rw [asapStep_components]; exact hnone)
        · intro cid htag
          rcases hTD cid with hn | ⟨_, hmem⟩
          · rw [hn] at htag; cases htag
          · rw [hdirty] at hmem
            cases hmem
        · intro A g B hmem hnmem hB
          have e5 : SchedEvent.reconcile A g ∉ (asapStep s).trace := by
            rw [asapStep_reconcile_mem]
            exact hnmem
          exact IH2g A g B hmem e5 hB
        · intro j cbs hpc
          rcases IH2h j cbs (by rw [asapStep_components]; exact hpc) with h5 | h5
          · exact Or.inl h5
          · exact Or.inr h5
        · intro j g hmem hnmem
          have e5 : SchedEvent.reconcile j g ∉ (asapStep s).trace := by
            rw [asapStep_reconcile_mem]
            exact hnmem
          exact IH2i j g hmem e5
        · intro hinv
          exact IH2j (asapStep_inv _ hinv)

/-! ### Batch entry lemmas -/

theorem schedInv_of_trace_nil (s : SchedState) (h : s.trace = []) : SchedInv s := by
  have hkeys : reconcileKeys s.trace = [] := by rw [h]; rfl
  refine ⟨?_, ?_, ?_⟩
  · rw [hkeys]
    exact List.nodup_nil
  · rw [hkeys]
    intro k hk
    cases hk
  · intro cid g _
    rw [hkeys]
    intro hmem
    cases hmem

/-- The state a fresh batching scope hands to the drain loop. -/
theorem batch_entry_facts (mount : CompId → Int) (pcbs : CompId → Option (List Nat))
    (enqs : List CompId) :
    TagDirtyInv (enqs.foldl enqueueUpdate
      { initState mount pcbs with isBatchingUpdates := true }) ∧
    (enqs.foldl enqueueUpdate
      { initState mount pcbs with isBatchingUpdates := true }).trace = [] ∧
    (∀ j, ((enqs.foldl enqueueUpdate
      { initState mount pcbs with isBatchingUpdates := true }).components j).pendingCallbacks =
        pcbs j) := by
  set s0 : SchedState := { initState mount pcbs with isBatchingUpdates := true }
    with hs0
  have htr : s0.trace = [] := rfl
  have hgen : s0.updateBatchNumber = 0 := rfl
  have htag0 : ∀ j, tagOf s0 j = none := fun j => rfl
  refine ⟨?_, ?_, ?_⟩
  · intro j
    rcases foldlEnqueue_tag enqs s0 j with h | ⟨_, h⟩
    · rw [h, htag0]
      exact Or.inl rfl
    · refine Or.inr ⟨by rw [h, foldlEnqueue_gen, hgen], ?_⟩
      have hchanged : tagOf (enqs.foldl enqueueUpdate s0) j ≠ tagOf s0 j := by
        rw [h, htag0]
        simp
      have hmem := foldlEnqueue_tag_changed_mem enqs s0 j hchanged
      rw [foldlEnqueue_dirty]
      exact List.mem_append_right _ hmem
  · rw [foldlEnqueue_trace]
    exact htr
  · intro j
    rw [foldlEnqueue_pcbs]
    rfl

/-! ### Claim C2 -/

/-- Claim C2: within a single flush pass, for any set of simultaneously-dirty
components with distinct `_mountOrder` values, `runBatchedUpdates` invokes
`ReactReconciler.performUpdateIfNecessary` on them in strictly ascending
`_mountOrder`, regardless of the order in which they were enqueued: the
dispatcher-invocation list of the pass's trace is strictly ascending in mount
order and is a permutation of the dirty queue. -/
theorem runBatchedUpdates_ascending_mountOrder (beh : Behavior) (s : SchedState)
    (L : Nat) (tr1 : List SchedEvent)
    (hrun : Option.map (fun p => p.2.trace) (runBatchedUpdates beh L s) = some tr1)
    (hinj : (s.dirtyComponents.map (fun c => (s.components c).mountOrder)).Nodup) :
    List.Pairwise
      (fun a b => (s.components a).mountOrder < (s.components b).mountOrder)
      (dispatchList (tr1.drop s.trace.length)) ∧
    (dispatchList (tr1.drop s.trace.length)).Perm s.dirtyComponents := by
  by_cases hL : L = s.dirtyComponents.length
  · subst hL
    rw [runBatchedUpdates_eq] at hrun
    simp only [Option.map_some'] at hrun
    have htr1 : (runLoop beh s.dirtyComponents.length 0 [] (sortState s)).2.trace =
        tr1 := Option.some.inj hrun
    have hlen : s.dirtyComponents.length ≤ (sortState s).dirtyComponents.length := by
      rw [sortState_length]
    have hdl := runLoop_dispatchList beh s.dirtyComponents.length 0 []
      (sortState s) hlen
    rw [htr1] at hdl
    have hsorttr : (sortState s).trace = s.trace := rfl
    have htake : ((sortState s).dirtyComponents.take
        s.dirtyComponents.length).drop 0 = (sortState s).dirtyComponents := by
      rw [List.drop_zero, ← sortState_length s, List.take_length]
    rw [hsorttr, htake] at hdl
    have hpre := runLoop_trace_pfx beh s.dirtyComponents.length 0 [] (sortState s)
    rw [htr1, hsorttr] at hpre
    obtain ⟨delta, hdelta⟩ := hpre
    have hdrop : tr1.drop s.trace.length = delta := by
      rw [← hdelta, List.drop_left]
    have hdldelta : dispatchList delta = (sortState s).dirtyComponents := by
      have : dispatchList (s.trace ++ delta) =
          dispatchList s.trace ++ (sortState s).dirtyComponents := by
        rw [hdelta]; exact hdl
      rw [dispatchList_append] at this
      exact List.append_cancel_left this
    rw [hdrop, hdldelta]
    constructor
    · haveI htotal : IsTotal CompId
          (fun a b => (s.components a).mountOrder ≤ (s.components b).mountOrder) :=
        ⟨fun a b => le_total _ _⟩
      haveI htrans : IsTrans CompId
          (fun a b => (s.components a).mountOrder ≤ (s.components b).mountOrder) :=
        ⟨fun a b c hab hbc => le_trans hab hbc⟩
      have hsorted := List.sorted_insertionSort
        (fun a b => (s.components a).mountOrder ≤ (s.components b).mountOrder)
        s.dirtyComponents
      have hnd : ((sortState s).dirtyComponents.map
          (fun c => (s.components c).mountOrder)).Nodup :=
        (((sortState_perm s).map _).nodup_iff).mpr hinj
      have hne : List.Pairwise
          (fun a b => (s.components a).mountOrder ≠ (s.components b).mountOrder)
          (sortState s).dirtyComponents :=
        List.pairwise_map.mp hnd
      have hle : List.Pairwise
          (fun a b => (s.components a).mountOrder ≤ (s.components b).mountOrder)
          (sortState s).dirtyComponents := hsorted
      exact (hle.and hne).imp (fun h => lt_of_le_of_ne h.1 h.2)
    · exact sortState_perm s
  · rw [show runBatchedUpdates beh L s = none by
      unfold runBatchedUpdates; rw [if_neg hL]] at hrun
    cases hrun

/-- Witness for C2 (the spec's Scenario A): components `0, 1, 2` with mount
orders `5, 2, 9` enqueued in order `[0, 1, 2]` are dispatched in order
`[1, 0, 2]`, i.e. mount orders `[2, 5, 9]`. -/
theorem runBatchedUpdates_ascending_mountOrder_witness :
    List.Pairwise
      (fun a b =>
        ((⟨fun cid => ⟨(if cid = 0 then 5 else if cid = 1 then 2 else 9 : Int),
            some 1, none⟩, [0, 1, 2], 0, true, [], false, []⟩ : SchedState).components a).mountOrder <
        ((⟨fun cid => ⟨(if cid = 0 then 5 else if cid = 1 then 2 else 9 : Int),
            some 1, none⟩, [0, 1, 2], 0, true, [], false, []⟩ : SchedState).components b).mountOrder)
      (dispatchList
        ([SchedEvent.dispatch 1, SchedEvent.reconcile 1 1, SchedEvent.dispatch 0,
          SchedEvent.reconcile 0 1, SchedEvent.dispatch 2,
          SchedEvent.reconcile 2 1].drop 0)) ∧
    (dispatchList
      ([SchedEvent.dispatch 1, SchedEvent.reconcile 1 1, SchedEvent.dispatch 0,
        SchedEvent.reconcile 0 1, SchedEvent.dispatch 2,
        SchedEvent.reconcile 2 1].drop 0)).Perm [0, 1, 2] :=
  runBatchedUpdates_ascending_mountOrder (fun _ => [])
    ⟨fun cid => ⟨(if cid = 0 then 5 else if cid = 1 then 2 else 9 : Int),
      some 1, none⟩, [0, 1, 2], 0, true, [], false, []⟩
    3 _ (by decide) (by decide)

theorem batchedUpdates_not_batching (beh : Behavior) (fuel : Nat)
    (enqs : List CompId) (s : SchedState) (h : s.isBatchingUpdates = false) :
    batchedUpdates beh fuel enqs s =
      match flushBatchedUpdates beh fuel
          (enqs.foldl enqueueUpdate { s with isBatchingUpdates := true }) with
      | none => none
      | some s2 => some { s2 with isBatchingUpdates := false } := by
  unfold batchedUpdates
  rw [if_neg (by rw [h]; simp)]

/-! ### Claim C1 -/

/-- Claim C1: for every sequence of `enqueueUpdate` calls, no component is
reconciled (has `ReactReconciler.performUpdateIfNecessary` delegate to its
node-kind implementation) twice for the same flush generation, even if pushed
into `dirtyComponents` multiple times: the `(component, generation)` keys of
the reconcile events are distinct.  Moreover a component whose
`_updateBatchNumber` differs from the current `updateBatchNumber` is skipped
(only the dispatch is recorded, no state changes), and a component scheduled
with a null tag is tagged `updateBatchNumber + 1`. -/
theorem enqueueUpdate_exactly_once_per_generation (beh : Behavior) (fuel : Nat)
    (enqs : List CompId) (mount : CompId → Int) (pcbs : CompId → Option (List Nat))
    (tr : List SchedEvent)
    (hrun : Option.map SchedState.trace
      (batchedUpdates beh fuel enqs (initState mount pcbs)) = some tr) :
    (reconcileKeys tr).Nodup ∧
    (∀ s cid, tagOf s cid ≠ some s.updateBatchNumber →
      performUpdateIfNecessary beh s cid = s.emit (SchedEvent.dispatch cid)) ∧
    (∀ s cid, tagOf s cid = none →
      tagOf (enqueueUpdate s cid) cid = some (s.updateBatchNumber + 1)) := by
  obtain ⟨s', hbs, htr⟩ := Option.map_eq_some'.mp hrun
  rw [batchedUpdates_not_batching beh fuel enqs (initState mount pcbs) rfl] at hbs
  rcases hfl : flushBatchedUpdates beh fuel
      (enqs.foldl enqueueUpdate
        { initState mount pcbs with isBatchingUpdates := true }) with _ | s3
  · rw [hfl] at hbs
    cases hbs
  · rw [hfl] at hbs
    have hs' : { s3 with isBatchingUpdates := false } = s' := Option.some.inj hbs
    have htr3 : s3.trace = tr := by
      rw [← hs'] at htr
      exact htr
    obtain ⟨hTDe, htre, _⟩ := batch_entry_facts mount pcbs enqs
    have hFF := flush_facts beh fuel _ s3 hTDe hfl
    have hinv3 : SchedInv s3 :=
      hFF.2.2.2.2.2.2.2.2.2 (schedInv_of_trace_nil _ htre)
    refine ⟨?_, ?_, ?_⟩
    · rw [← htr3]
      exact hinv3.1
    · intro s cid htag
      rcases performUpdateIfNecessary_cases beh s cid with ⟨_, heq⟩ | ⟨hc, _⟩
      · exact heq
      · exact absurd hc htag
    · intro s cid htag
      rw [enqueueUpdate_tag]
      simp [htag]

/-- Witness for C1: component `0` scheduled twice in one batch, its behaviour
re-scheduling itself once more; the reconcile keys of the resulting trace are
distinct, and the skip/tagging equations hold at a concrete state. -/
theorem enqueueUpdate_exactly_once_per_generation_witness :
    (reconcileKeys
      [SchedEvent.dispatch 0, SchedEvent.reconcile 0 1, SchedEvent.dispatch 0,
       SchedEvent.dispatch 1, SchedEvent.reconcile 1 2]).Nodup :=
  (enqueueUpdate_exactly_once_per_generation
    (fun cid => if cid = 0 then [1] else []) 10 [0, 0]
    (fun _ => 0) (fun _ => none) _ (by decide)).1

/-! ### Claim C3 -/

/-- Claim C3: if reconciling one component during a flush pass synchronously
enqueues another component, the NESTED_UPDATES close hook detects the
dirty-queue growth, splices off the processed prefix and recursively re-invokes
`flushBatchedUpdates`; the drain returns only when both `dirtyComponents` and
the asap queue are empty, and by then every component scheduled by a
reconciled component's behaviour has itself been reconciled, with its pending
callbacks notified. -/
theorem flush_cascade_resolution (beh : Behavior) (fuel : Nat)
    (enqs : List CompId) (mount : CompId → Int) (pcbs : CompId → Option (List Nat))
    (tr : List SchedEvent) (d : List CompId) (a : Bool)
    (hrun : Option.map (fun s => (s.trace, s.dirtyComponents, s.asapEnqueued))
      (batchedUpdates beh fuel enqs (initState mount pcbs)) = some (tr, d, a)) :
    d = [] ∧ a = false ∧
    (∀ A g B, SchedEvent.reconcile A g ∈ tr → B ∈ beh A →
      ∃ g', SchedEvent.reconcile B g' ∈ tr) ∧
    (∀ B cbs cb, pcbs B = some cbs → cb ∈ cbs →
      (∃ g', SchedEvent.reconcile B g' ∈ tr) → SchedEvent.notify cb B ∈ tr) := by
  obtain ⟨s', hbs, hobs⟩ := Option.map_eq_some'.mp hrun
  rw [batchedUpdates_not_batching beh fuel enqs (initState mount pcbs) rfl] at hbs
  rcases hfl : flushBatchedUpdates beh fuel
      (enqs.foldl enqueueUpdate
        { initState mount pcbs with isBatchingUpdates := true }) with _ | s3
  · rw [hfl] at hbs
    cases hbs
  · rw [hfl] at hbs
    have hs' : { s3 with isBatchingUpdates := false } = s' := Option.some.inj hbs
    rw [← hs'] at hobs
    have hobs3 : (s3.trace, s3.dirtyComponents, s3.asapEnqueued) = (tr, d, a) :=
      hobs
    have htr3 : s3.trace = tr := congrArg Prod.fst hobs3
    have hd3 : s3.dirtyComponents = d := congrArg (fun p => p.2.1) hobs3
    have ha3 : s3.asapEnqueued = a := congrArg (fun p => p.2.2) hobs3
    obtain ⟨hTDe, htre, hpcbse⟩ := batch_entry_facts mount pcbs enqs
    have hFF := flush_facts beh fuel _ s3 hTDe hfl
    obtain ⟨_, hFFd, hFFa, _, _, _, hFFcas, hFFcb, hFFpcn, _⟩ := hFF
    refine ⟨by rw [← hd3]; exact hFFd, by rw [← ha3]; exact hFFa, ?_, ?_⟩
    · intro A g B hmem hB
      have hnot : SchedEvent.reconcile A g ∉
          (enqs.foldl enqueueUpdate
            { initState mount pcbs with isBatchingUpdates := true }).trace := by
        rw [htre]
        exact List.not_mem_nil _
      obtain ⟨g', hg'⟩ := hFFcas A g B (by rw [htr3]; exact hmem) hnot hB
      exact ⟨g', by rw [← htr3]; exact hg'⟩
    · intro B cbs cb hpcb hcb ⟨g', hg'⟩
      have hpce : ((enqs.foldl enqueueUpdate
          { initState mount pcbs with isBatchingUpdates := true }).components B).pendingCallbacks =
          some cbs := by
        rw [hpcbse]
        exact hpcb
      have hnot : SchedEvent.reconcile B g' ∉
          (enqs.foldl enqueueUpdate
            { initState mount pcbs with isBatchingUpdates := true }).trace := by
        rw [htre]
        exact List.not_mem_nil _
      have hnone := hFFpcn B g' (by rw [htr3]; exact hg') hnot
      rcases hFFcb B cbs hpce with hkeep | hnotif
      · rw [hnone] at hkeep
        cases hkeep
      · rw [← htr3]
        exact hnotif cb hcb

/-- Witness for C3 (the spec's Scenario B): reconciling component `0`
schedules component `1`; before the drain goes idle, component `1` has been
reconciled (in the following generation) and its pending callback `101` has
been notified. -/
theorem flush_cascade_resolution_witness :
    SchedEvent.notify 101 1 ∈
      [SchedEvent.dispatch 0, SchedEvent.reconcile 0 1, SchedEvent.dispatch 1,
       SchedEvent.reconcile 1 2, SchedEvent.notify 101 1,
       SchedEvent.notify 100 0] :=
  (flush_cascade_resolution (fun cid => if cid = 0 then [1] else []) 10 [0]
    (fun cid => (cid : Int) + 1)
    (fun cid => if cid = 0 then some [100]
      else if cid = 1 then some [101] else none)
    [SchedEvent.dispatch 0, SchedEvent.reconcile 0 1, SchedEvent.dispatch 1,
     SchedEvent.reconcile 1 2, SchedEvent.notify 101 1, SchedEvent.notify 100 0]
    [] false (by decide)).2.2.2 1 [101] 101 (by decide) (by decide)
    ⟨2, by decide⟩

end ReactVerify
